import Mathlib

/-!
Shallow embedding of the semantic-canvas state engine
(backend in src/backend/api.py, vector math in src/models/semantic_axes.py,
src/models/embeddings.py and src/app.py).

The backend keeps one global AppState holding the artifact records
(images_metadata), the history groups, the axis labels, the 2D/3D flag and
the next_id counter.  The machine-learning collaborators (CLIP embedder,
Stable Diffusion generator) are opaque: operations below receive the
embedding vectors the collaborators would have produced as explicit inputs,
and the text-embedding path is a parameter te : String → List K.
Numeric values (numpy floats) are idealised as elements of a commutative
ring K; the real-analysis parts (normalisation, slerp) are stated over ℝ.
The states modelled are those of an initialised server (embedder,
generator and axis builder loaded), which is the precondition every
mutating endpoint checks before touching the store.
-/

namespace SemanticCanvas

/-- Dot product of two numeric vectors, as used by numpy's matmul/dot on
1-D arrays (truncating to the shorter length). -/
def dot {K : Type} [CommRing K] : List K → List K → K
  | a :: as, b :: bs => a * b + dot as bs
  | _, _ => 0

/-- Metadata record for one artifact, mirroring
models/data_structures.py ImageMetadata (the PIL image payload and the
wall-clock timestamp are dropped: no claim mentions them). -/
structure ImageMetadata (K : Type) where
  id : Nat
  groupId : String
  embedding : List K
  coordinates : List K
  parents : List Nat
  children : List Nat
  generationMethod : String
  prompt : String
  referenceIds : List Nat
  visible : Bool
deriving Repr, DecidableEq

/-- History group record, mirroring models/data_structures.py HistoryGroup
(timestamp dropped). -/
structure HistoryGroup where
  id : String
  type : String
  imageIds : List Nat
  prompt : String
  visible : Bool
  thumbnailId : Option Nat
deriving Repr, DecidableEq

/-- The three axis-label pairs (negative, positive), mirroring the
state.axis_labels dict of api.py which always carries keys x, y, z. -/
structure AxisLabels where
  x : String × String
  y : String × String
  z : String × String
deriving Repr, DecidableEq

/-- Global mutable state of the backend (api.py AppState), restricted to
the fields the claims are about.  The collaborator handles
(embedder/generator/axis_builder) and the websocket list are dropped. -/
structure AppState (K : Type) where
  imagesMetadata : List (ImageMetadata K)
  historyGroups : List HistoryGroup
  axisLabels : AxisLabels
  is3dMode : Bool
  nextId : Nat
deriving Repr, DecidableEq

/-- Axis labels installed by AppState.__init__ in api.py. -/
def initialAxisLabels : AxisLabels :=
  { x := ("formal", "sporty"), y := ("dark", "colorful"), z := ("casual", "elegant") }

/-- Fresh state built by AppState.__init__ in api.py. -/
def initialState (K : Type) : AppState K :=
  { imagesMetadata := [], historyGroups := [], axisLabels := initialAxisLabels,
    is3dMode := false, nextId := 0 }

/-- Direction vector of a CLIP text axis:
SemanticAxisBuilder.create_clip_text_axis in models/semantic_axes.py
computes direction = text_embeddings[0] - text_embeddings[1], the raw
difference of the two text embeddings, with no normalisation. -/
def clipTextAxisDirection {K : Type} [CommRing K] (te : String → List K)
    (positiveConcept negativeConcept : String) : List K :=
  List.zipWith (fun p n => p - n) (te positiveConcept) (te negativeConcept)

/-- Coordinate projection of one embedding,
project_embeddings_to_coordinates in api.py: the axis texts are the labels
wrapped as "shoe that is LABEL" with the pair stored as
(negative, positive); each coordinate is the plain dot product of the
stored embedding with the unnormalised axis direction; the z coordinate is
added exactly when 3D mode is on (the labels dict always has a z key). -/
def projectEmbedding {K : Type} [CommRing K] (te : String → List K)
    (labels : AxisLabels) (use3d : Bool) (e : List K) : List K :=
  let xdir := clipTextAxisDirection te ("shoe that is " ++ labels.x.2)
      ("shoe that is " ++ labels.x.1)
  let ydir := clipTextAxisDirection te ("shoe that is " ++ labels.y.2)
      ("shoe that is " ++ labels.y.1)
  if use3d then
    let zdir := clipTextAxisDirection te ("shoe that is " ++ labels.z.2)
        ("shoe that is " ++ labels.z.1)
    [dot e xdir, dot e ydir, dot e zdir]
  else
    [dot e xdir, dot e ydir]

/-- Replacement of the first element satisfying q, modelling Python's
pattern of locating a record with next(...) and mutating it in place. -/
def updateFirst {α : Type} (q : α → Bool) (f : α → α) : List α → List α
  | [] => []
  | a :: l => if q a then f a :: l else a :: updateFirst q f l

/-- Batch of fresh metadata records built by the creation loops of
generate_images and add_external_images in api.py: ids are assigned from
the running next_id counter which the loop increments once per image;
parents and reference_ids are the request's parent list ([] for
generate_images), children start empty, visible starts true. -/
def mkBatchMetas {K : Type} [CommRing K] (te : String → List K)
    (labels : AxisLabels) (use3d : Bool) (groupId method prompt : String)
    (parentIds : List Nat) (startId : Nat) : List (List K) → List (ImageMetadata K)
  | [] => []
  | e :: rest =>
    { id := startId, groupId := groupId, embedding := e,
      coordinates := projectEmbedding te labels use3d e,
      parents := parentIds, children := [], generationMethod := method,
      prompt := prompt, referenceIds := parentIds, visible := true } ::
      mkBatchMetas te labels use3d groupId method prompt parentIds (startId + 1) rest

/-- Error taxonomy actually raised by the modelled store paths of api.py
(HTTP 404 when a referenced image id is not in the store). -/
inductive ApiError where
  | notFound
deriving Repr, DecidableEq

/-- The generate_images endpoint of api.py: one record per generated
image, ids next_id onward, no parents, a fresh batch history group whose
thumbnail is the first new id. -/
def generateImages {K : Type} [CommRing K] (te : String → List K)
    (s : AppState K) (prompt : String) (embs : List (List K)) : AppState K :=
  let groupId := "batch_" ++ toString s.historyGroups.length
  let newMetas := mkBatchMetas te s.axisLabels s.is3dMode groupId "batch" prompt []
    s.nextId embs
  let imageIds := newMetas.map (fun m => m.id)
  { s with
    imagesMetadata := s.imagesMetadata ++ newMetas,
    nextId := s.nextId + embs.length,
    historyGroups := s.historyGroups ++
      [{ id := groupId, type := "batch", imageIds := imageIds, prompt := prompt,
         visible := true, thumbnailId := imageIds.head? }] }

/-- The generate-from-reference endpoint of api.py: 404 when the
reference id is absent; otherwise a single child record with
parents = [reference_id] is appended, the new id is pushed onto the
reference record's children list, and a singleton history group is added. -/
def generateFromReference {K : Type} [CommRing K] (te : String → List K)
    (s : AppState K) (referenceId : Nat) (prompt : String) (emb : List K) :
    Except ApiError (AppState K) :=
  match s.imagesMetadata.find? (fun img => img.id == referenceId) with
  | none => .error .notFound
  | some _ =>
    let nid := s.nextId
    let groupId := "reference_" ++ toString s.historyGroups.length
    let meta : ImageMetadata K :=
      { id := nid, groupId := groupId, embedding := emb,
        coordinates := projectEmbedding te s.axisLabels s.is3dMode emb,
        parents := [referenceId], children := [], generationMethod := "reference",
        prompt := prompt, referenceIds := [referenceId], visible := true }
    let updated := updateFirst (fun img => img.id == referenceId)
      (fun img => { img with children := img.children ++ [nid] }) s.imagesMetadata
    .ok { s with
      imagesMetadata := updated ++ [meta],
      nextId := nid + 1,
      historyGroups := s.historyGroups ++
        [{ id := groupId, type := "reference", imageIds := [nid], prompt := prompt,
           visible := true, thumbnailId := some nid }] }

/-- The interpolate endpoint of api.py: 404 when either id is absent;
otherwise a single record with parents = [id_a, id_b] is appended and the
new id is pushed onto the children of the record found for id_a and onto
the children of the record found for id_b (the same record twice when
id_a = id_b, duplicating the entry).  There is no id_a ≠ id_b check. -/
def interpolateImages {K : Type} [CommRing K] (te : String → List K)
    (s : AppState K) (ida idb : Nat) (emb : List K) :
    Except ApiError (AppState K) :=
  match s.imagesMetadata.find? (fun img => img.id == ida),
      s.imagesMetadata.find? (fun img => img.id == idb) with
  | some _, some _ =>
    let nid := s.nextId
    let groupId := "interpolation_" ++ toString s.historyGroups.length
    let meta : ImageMetadata K :=
      { id := nid, groupId := groupId, embedding := emb,
        coordinates := projectEmbedding te s.axisLabels s.is3dMode emb,
        parents := [ida, idb], children := [],
        generationMethod := "interpolation",
        prompt := "Interpolation between " ++ toString ida ++ " and " ++ toString idb,
        referenceIds := [ida, idb], visible := true }
    let updated := updateFirst (fun img => img.id == idb)
      (fun img => { img with children := img.children ++ [nid] })
      (updateFirst (fun img => img.id == ida)
        (fun img => { img with children := img.children ++ [nid] }) s.imagesMetadata)
    .ok { s with
      imagesMetadata := updated ++ [meta],
      nextId := nid + 1,
      historyGroups := s.historyGroups ++
        [{ id := groupId, type := "interpolation", imageIds := [nid],
           prompt := "Between #" ++ toString ida ++ " & #" ++ toString idb,
           visible := true, thumbnailId := some nid }] }
  | _, _ => .error .notFound

/-- Request body of the add-external-images endpoint (the image URLs are
replaced by the embeddings the CLIP collaborator extracts from the
downloaded images; the remove_background flag only affects pixels). -/
structure AddExternalImagesRequest where
  prompt : String
  generationMethod : String
  parentIds : List Nat
deriving Repr, DecidableEq

/-- Children update applied to a parent record by add_external_images:
each new id is appended unless already present. -/
def addChildrenIfAbsent {K : Type} (newIds : List Nat)
    (img : ImageMetadata K) : ImageMetadata K :=
  { img with children :=
      newIds.foldl (fun cs c => if c ∈ cs then cs else cs ++ [c]) img.children }

/-- The add-external-images endpoint of api.py: new records (one per
image) carry parents = request.parent_ids verbatim and are appended to the
store first; then, for each listed parent id, the first record with that
id in the EXTENDED list gets the new ids appended to its children — a
parent id with no matching record is merely logged as a warning and
skipped, the request still succeeds. -/
def addExternalImages {K : Type} [CommRing K] (te : String → List K)
    (s : AppState K) (req : AddExternalImagesRequest) (embs : List (List K)) :
    AppState K :=
  let groupId := req.generationMethod ++ "_" ++ toString s.historyGroups.length
  let newMetas := mkBatchMetas te s.axisLabels s.is3dMode groupId
    req.generationMethod req.prompt req.parentIds s.nextId embs
  let newIds := newMetas.map (fun m => m.id)
  let extended := s.imagesMetadata ++ newMetas
  let linked := req.parentIds.foldl
    (fun acc p => updateFirst (fun img => img.id == p) (addChildrenIfAbsent newIds) acc)
    extended
  { s with
    imagesMetadata := linked,
    nextId := s.nextId + embs.length,
    historyGroups := s.historyGroups ++
      [{ id := groupId, type := req.generationMethod, imageIds := newIds,
         prompt := req.prompt, visible := true, thumbnailId := newIds.head? }] }

/-- The delete-image endpoint of api.py (soft delete): 404 when the id is
absent; otherwise the found record's visible flag is set to false and
nothing else changes. -/
def deleteImage {K : Type} (s : AppState K) (imageId : Nat) :
    Except ApiError (AppState K) :=
  if s.imagesMetadata.any (fun img => img.id == imageId) then
    .ok { s with
      imagesMetadata := updateFirst (fun img => img.id == imageId)
        (fun img => { img with visible := false }) s.imagesMetadata }
  else .error .notFound

/-- The clear endpoint of api.py: empties the record and group lists and
resets next_id to 0; axis labels and the 3D flag are not touched. -/
def clearCanvas {K : Type} (s : AppState K) : AppState K :=
  { s with imagesMetadata := [], historyGroups := [], nextId := 0 }

/-- Request body of the update-axes endpoint. -/
structure AxisUpdateRequest where
  xPositive : String
  xNegative : String
  yPositive : String
  yNegative : String
  zPositive : Option String
  zNegative : Option String
deriving Repr, DecidableEq

/-- Axis labels after update_semantic_axes: x and y are always replaced by
(negative, positive); z is replaced only when both optional z fields are
supplied and non-empty (Python truthiness of the strings). -/
def axisLabelsAfter (labels : AxisLabels) (req : AxisUpdateRequest) : AxisLabels :=
  let base := { labels with
    x := (req.xNegative, req.xPositive), y := (req.yNegative, req.yPositive) }
  match req.zPositive, req.zNegative with
  | some zp, some zn =>
    if zp ≠ "" ∧ zn ≠ "" then { base with z := (zn, zp) } else base
  | _, _ => base

/-- The update-axes endpoint of api.py: installs the new labels and
recomputes the coordinates of every record in images_metadata (visible or
not) from its stored embedding, in the current 2D/3D mode.  The source
guards the recompute with len > 0, which is the identity on an empty
list, so the guard is dropped. -/
def updateSemanticAxes {K : Type} [CommRing K] (te : String → List K)
    (s : AppState K) (req : AxisUpdateRequest) : AppState K :=
  let labels := axisLabelsAfter s.axisLabels req
  { s with
    axisLabels := labels,
    imagesMetadata := s.imagesMetadata.map (fun img =>
      { img with coordinates := projectEmbedding te labels s.is3dMode img.embedding }) }

/-- The set-3d-mode endpoint of api.py: flips the flag and recomputes every
record's coordinates in the new dimensionality. -/
def set3dMode {K : Type} [CommRing K] (te : String → List K)
    (s : AppState K) (use3d : Bool) : AppState K :=
  { s with
    is3dMode := use3d,
    imagesMetadata := s.imagesMetadata.map (fun img =>
      { img with coordinates := projectEmbedding te s.axisLabels use3d img.embedding }) }

/-- One mutating request against the store, with the data the opaque
collaborators would supply (generated/downloaded image embeddings)
attached as explicit payloads. -/
inductive Op (K : Type) where
  | generate (prompt : String) (embs : List (List K))
  | genFromReference (referenceId : Nat) (prompt : String) (emb : List K)
  | interpolate (ida idb : Nat) (emb : List K)
  | addExternal (req : AddExternalImagesRequest) (embs : List (List K))
  | softDelete (imageId : Nat)
  | clearOp
  | updateAxes (req : AxisUpdateRequest)
  | set3d (use3d : Bool)

/-- Result of running one mutating endpoint on a state. -/
def stepResult {K : Type} [CommRing K] (te : String → List K)
    (s : AppState K) : Op K → Except ApiError (AppState K)
  | .generate prompt embs => .ok (generateImages te s prompt embs)
  | .genFromReference r prompt emb => generateFromReference te s r prompt emb
  | .interpolate ida idb emb => interpolateImages te s ida idb emb
  | .addExternal req embs => .ok (addExternalImages te s req embs)
  | .softDelete i => deleteImage s i
  | .clearOp => .ok (clearCanvas s)
  | .updateAxes req => .ok (updateSemanticAxes te s req)
  | .set3d b => .ok (set3dMode te s b)

end SemanticCanvas

namespace SemanticCanvas

/-- Ids of the records in a store list, in list (= creation) order. -/
def idsOf {K : Type} (l : List (ImageMetadata K)) : List Nat :=
  l.map (fun m => m.id)

/-- Bidirectional genealogy closure of a store list: every parent
reference resolves to a record that lists the referrer among its children,
and every child reference resolves to a record that lists the referrer
among its parents. -/
def bidirClosed {K : Type} (l : List (ImageMetadata K)) : Prop :=
  ∀ a ∈ l,
    (∀ p ∈ a.parents, ∃ P ∈ l, P.id = p ∧ a.id ∈ P.children) ∧
    (∀ c ∈ a.children, ∃ C ∈ l, C.id = c ∧ a.id ∈ C.parents)

instance {K : Type} (l : List (ImageMetadata K)) : Decidable (bidirClosed l) := by
  unfold bidirClosed; infer_instance

/-- Side condition distinguishing the one unchecked linking path: an
add-external-images request is safe when every listed parent id already
names a record in the store. -/
def opParentsExist {K : Type} (s : AppState K) : Op K → Prop
  | .addExternal req _ => ∀ p ∈ req.parentIds, ∃ a ∈ s.imagesMetadata, a.id = p
  | _ => True

/-- Id-counter invariant: record ids are strictly increasing in creation
(list) order and all lie below the next_id counter. -/
def idInv {K : Type} (s : AppState K) : Prop :=
  List.Pairwise (· < ·) (idsOf s.imagesMetadata) ∧
    ∀ a ∈ s.imagesMetadata, a.id < s.nextId

instance {K : Type} (s : AppState K) : Decidable (idInv s) := by
  unfold idInv; infer_instance

end SemanticCanvas

namespace SemanticCanvas

/-- Euclidean norm of a vector (np.linalg.norm). -/
noncomputable def vnorm (v : List ℝ) : ℝ := Real.sqrt (dot v v)

/-- Unit-normalisation of a vector, emb / np.linalg.norm(emb). -/
noncomputable def normalizeVec (v : List ℝ) : List ℝ := v.map (fun x => x / vnorm v)

/-- Clamp to the interval [-1, 1], np.clip(x, -1.0, 1.0). -/
noncomputable def npClip (x : ℝ) : ℝ := max (-1) (min 1 x)

/-- Element j of np.linspace(0, 1, n): j / (n - 1).  For n = 1 numpy
returns [0.0] and the Lean convention 0 / 0 = 0 agrees. -/
noncomputable def linspace01 (n j : ℕ) : ℝ := (j : ℝ) / ((n : ℝ) - 1)

/-- Linear-blend fallback of EmbeddingInterpolator.spherical_interpolate
in src/app.py: (1 - alpha) * emb_a + alpha * emb_b. -/
noncomputable def linearBlend (t : ℝ) (a b : List ℝ) : List ℝ :=
  List.zipWith (fun x y => (1 - t) * x + t * y) a b

/-- Sine-weighted blend of the main slerp branch in src/app.py:
(sin((1 - alpha) * omega) / sin omega) * emb_a
  + (sin(alpha * omega) / sin omega) * emb_b. -/
noncomputable def slerpSineBlend (omega t : ℝ) (a b : List ℝ) : List ℝ :=
  List.zipWith (fun x y =>
    Real.sin ((1 - t) * omega) / Real.sin omega * x +
      Real.sin (t * omega) / Real.sin omega * y) a b

/-- The angle omega computed by spherical_interpolate in src/app.py:
arccos of the clamped dot product of the two normalised inputs. -/
noncomputable def slerpOmega (a b : List ℝ) : ℝ :=
  Real.arccos (npClip (dot (normalizeVec a) (normalizeVec b)))

/-- The guard of spherical_interpolate in src/app.py: the linear-blend
fallback branch is taken exactly when omega < 1e-6. -/
def slerpUsesLinearFallback (a b : List ℝ) : Prop := slerpOmega a b < 1e-6

/-- EmbeddingInterpolator.spherical_interpolate in src/app.py: normalise
both inputs, compute omega, and emit n evenly spaced blends, linear when
omega < 1e-6 and sine-weighted otherwise. -/
noncomputable def sphericalInterpolate (a b : List ℝ) (nSteps : ℕ) : List (List ℝ) :=
  let na := normalizeVec a
  let nb := normalizeVec b
  if slerpOmega a b < 1e-6 then
    (List.range nSteps).map (fun j => linearBlend (linspace01 nSteps j) na nb)
  else
    (List.range nSteps).map (fun j => slerpSineBlend (slerpOmega a b) (linspace01 nSteps j) na nb)

/-- Modelled from the spec: section 4.3(b) defines the semantic-axis
coordinate of a point as the dot product of its unit-normalised embedding
with the unit axis vector normalize(embed(positiveText) − embed(negativeText)).
This definition follows the spec's words and is compared with the
projection the source actually computes (projectEmbedding). -/
noncomputable def specAxisCoordinate (te : String → List ℝ)
    (positiveText negativeText : String) (e : List ℝ) : ℝ :=
  dot (normalizeVec e) (normalizeVec (clipTextAxisDirection te positiveText negativeText))

/-- Text-embedding collaborator returning no data, used to run the store
operations on concrete inputs where the coordinates are irrelevant. -/
def te0 : String → List ℚ := fun _ => []

/-- A one-artifact store (one batch-generated record with id 0), used as
the concrete starting state of several counterexamples and witnesses. -/
def exMeta0 : ImageMetadata ℚ :=
  { id := 0, groupId := "batch_0", embedding := [1], coordinates := [0, 0],
    parents := [], children := [], generationMethod := "batch",
    prompt := "seed", referenceIds := [], visible := true }

/-- History group of the one-artifact store. -/
def exGroup0 : HistoryGroup :=
  { id := "batch_0", type := "batch", imageIds := [0],
    prompt := "seed", visible := true, thumbnailId := some 0 }

/-- Concrete backend state holding exactly the artifact exMeta0. -/
def exState1 : AppState ℚ :=
  { imagesMetadata := [exMeta0], historyGroups := [exGroup0],
    axisLabels := initialAxisLabels, is3dMode := false, nextId := 1 }

/-- An add-external-images request naming parent id 7, which exState1
does not contain. -/
def reqDangling : AddExternalImagesRequest :=
  { prompt := "ext", generationMethod := "batch", parentIds := [7] }

/-- Concrete unit text embeddings over ℝ: the positive x concept of the
initial labels maps to e1 = [1, 0], every other text to e2 = [0, 1]. -/
noncomputable def teR : String → List ℝ := fun s =>
  if s = "shoe that is sporty" then [1, 0] else [0, 1]

end SemanticCanvas

namespace SemanticCanvas

/-- Visible records, as served by the get_state endpoint of api.py
(images = those records of images_metadata whose visible flag is set). -/
def visibleImages {K : Type} (s : AppState K) : List (ImageMetadata K) :=
  s.imagesMetadata.filter (fun img => img.visible)

/-- Simulation relation between a record and its descendant through the
child-linking fold of add_external_images: the id and parents (and every
field except children) are untouched, the children list only grows, and
any id that appears among the children either was already there or is one
of the freshly inserted ids S attached to a record whose own id occurs in
the request's parent list ps. -/
def LinkRel {K : Type} (S ps : List Nat) (a b : ImageMetadata K) : Prop :=
  b.id = a.id ∧ b.groupId = a.groupId ∧ b.embedding = a.embedding ∧
    b.coordinates = a.coordinates ∧ b.parents = a.parents ∧
    b.generationMethod = a.generationMethod ∧ b.prompt = a.prompt ∧
    b.referenceIds = a.referenceIds ∧ b.visible = a.visible ∧
    (∀ c ∈ a.children, c ∈ b.children) ∧
    (∀ c ∈ b.children, c ∈ a.children ∨ (c ∈ S ∧ b.id ∈ ps))

end SemanticCanvas

namespace SemanticCanvas

theorem forall₂_trans {α : Type} {R : α → α → Prop}
    (htrans : ∀ a b c, R a b → R b c → R a c) :
    ∀ {l₁ l₂ l₃ : List α}, List.Forall₂ R l₁ l₂ → List.Forall₂ R l₂ l₃ →
      List.Forall₂ R l₁ l₃ := by
  intro l₁ l₂ l₃ h₁ h₂
  induction h₁ generalizing l₃ with
  | nil => cases h₂; exact .nil
  | cons hab _ ih =>
    cases h₂ with
    | cons hbc h' => exact .cons (htrans _ _ _ hab hbc) (ih h')

theorem forall₂_mem_left {α : Type} {R : α → α → Prop} {l₁ l₂ : List α}
    (h : List.Forall₂ R l₁ l₂) : ∀ a ∈ l₁, ∃ b ∈ l₂, R a b := by
  induction h with
  | nil => intro a ha; cases ha
  | cons hab _ ih =>
    intro a ha
    rcases List.mem_cons.1 ha with rfl | ha'
    · exact ⟨_, List.mem_cons_self _ _, hab⟩
    · rcases ih a ha' with ⟨b, hb, hr⟩
      exact ⟨b, List.mem_cons_of_mem _ hb, hr⟩

theorem forall₂_mem_right {α : Type} {R : α → α → Prop} {l₁ l₂ : List α}
    (h : List.Forall₂ R l₁ l₂) : ∀ b ∈ l₂, ∃ a ∈ l₁, R a b := by
  induction h with
  | nil => intro b hb; cases hb
  | cons hab _ ih =>
    intro b hb
    rcases List.mem_cons.1 hb with rfl | hb'
    · exact ⟨_, List.mem_cons_self _ _, hab⟩
    · rcases ih b hb' with ⟨a, ha, hr⟩
      exact ⟨a, List.mem_cons_of_mem _ ha, hr⟩

theorem forall₂_updateFirst {α : Type} {R : α → α → Prop} {q : α → Bool} {f : α → α}
    (hrefl : ∀ a, R a a) (hstep : ∀ a, q a = true → R a (f a)) :
    ∀ l : List α, List.Forall₂ R l (updateFirst q f l) := by
  intro l
  induction l with
  | nil => exact .nil
  | cons a l ih =>
    by_cases hq : q a
    · simpa [updateFirst, hq] using
        List.Forall₂.cons (hstep a hq) (List.forall₂_same.2 fun x _ => hrefl x)
    · simpa [updateFirst, hq] using List.Forall₂.cons (hrefl a) ih

theorem updateFirst_decomp {α : Type} {q : α → Bool} (f : α → α) {l : List α}
    (h : ∃ a ∈ l, q a = true) :
    ∃ l₁ a l₂, l = l₁ ++ a :: l₂ ∧ q a = true ∧ (∀ b ∈ l₁, q b = false) ∧
      updateFirst q f l = l₁ ++ f a :: l₂ := by
  induction l with
  | nil => rcases h with ⟨a, ha, _⟩; cases ha
  | cons hd tl ih =>
    by_cases hq : q hd
    · refine ⟨[], hd, tl, rfl, hq, ?_, ?_⟩
      · intro b hb; cases hb
      · simp [updateFirst, hq]
    · have h' : ∃ a ∈ tl, q a = true := by
        rcases h with ⟨a, ha, hqa⟩
        rcases List.mem_cons.1 ha with rfl | ha'
        · exact absurd hqa (by simpa using hq)
        · exact ⟨a, ha', hqa⟩
      rcases ih h' with ⟨l₁, a, l₂, hl, hqa, hnone, hupd⟩
      refine ⟨hd :: l₁, a, l₂, by simp [hl], hqa, ?_, by simp [updateFirst, hq, hupd]⟩
      intro b hb
      rcases List.mem_cons.1 hb with rfl | hb'
      · simpa using hq
      · exact hnone b hb'

theorem updateFirst_eq_of_none {α : Type} {q : α → Bool} (f : α → α) {l : List α}
    (h : ∀ a ∈ l, q a = false) : updateFirst q f l = l := by
  induction l with
  | nil => rfl
  | cons hd tl ih =>
    have hhd := h hd (List.mem_cons_self _ _)
    simp [updateFirst, hhd, ih fun a ha => h a (List.mem_cons_of_mem _ ha)]

theorem updateFirst_updateFirst {α : Type} {q : α → Bool} {f g : α → α}
    (hf : ∀ a, q (f a) = q a) (l : List α) :
    updateFirst q g (updateFirst q f l) = updateFirst q (fun a => g (f a)) l := by
  induction l with
  | nil => rfl
  | cons hd tl ih =>
    by_cases hq : q hd
    · simp [updateFirst, hq, hf hd]
    · simp [updateFirst, hq, ih]

theorem mem_childFold_of_mem_left {x : Nat} {cs : List Nat} (S : List Nat)
    (h : x ∈ cs) :
    x ∈ S.foldl (fun cs c => if c ∈ cs then cs else cs ++ [c]) cs := by
  induction S generalizing cs with
  | nil => simpa using h
  | cons d S ih =>
    simp only [List.foldl_cons]
    by_cases hd : d ∈ cs
    · rw [if_pos hd]; exact ih h
    · rw [if_neg hd]; exact ih (List.mem_append.2 (Or.inl h))

theorem mem_childFold_of_mem_right {x : Nat} {cs S : List Nat} (h : x ∈ S) :
    x ∈ S.foldl (fun cs c => if c ∈ cs then cs else cs ++ [c]) cs := by
  induction S generalizing cs with
  | nil => cases h
  | cons d S ih =>
    simp only [List.foldl_cons]
    rcases List.mem_cons.1 h with rfl | hx
    · by_cases hd : x ∈ cs
      · rw [if_pos hd]; exact mem_childFold_of_mem_left S hd
      · rw [if_neg hd]
        exact mem_childFold_of_mem_left S (List.mem_append.2 (Or.inr (by simp)))
    · exact ih hx

theorem mem_of_mem_childFold {x : Nat} {cs S : List Nat}
    (h : x ∈ S.foldl (fun cs c => if c ∈ cs then cs else cs ++ [c]) cs) :
    x ∈ cs ∨ x ∈ S := by
  induction S generalizing cs with
  | nil => exact Or.inl (by simpa using h)
  | cons d S ih =>
    simp only [List.foldl_cons] at h
    by_cases hd : d ∈ cs
    · rw [if_pos hd] at h
      rcases ih h with h' | h'
      · exact Or.inl h'
      · exact Or.inr (List.mem_cons_of_mem _ h')
    · rw [if_neg hd] at h
      rcases ih h with h' | h'
      · rcases List.mem_append.1 h' with h'' | h''
        · exact Or.inl h''
        · exact Or.inr (by simpa using Or.inl (List.mem_singleton.1 h''))
      · exact Or.inr (List.mem_cons_of_mem _ h')

end SemanticCanvas

namespace SemanticCanvas

theorem linkRel_refl {K : Type} (S ps : List Nat) (a : ImageMetadata K) :
    LinkRel S ps a a := by
  refine ⟨rfl, rfl, rfl, rfl, rfl, rfl, rfl, rfl, rfl, fun c hc => hc, fun c hc => Or.inl hc⟩

theorem linkRel_trans {K : Type} {S ps : List Nat} {a b c : ImageMetadata K}
    (h₁ : LinkRel S ps a b) (h₂ : LinkRel S ps b c) : LinkRel S ps a c := by
  obtain ⟨hid₁, hg₁, he₁, hc₁, hp₁, hm₁, hpr₁, hr₁, hv₁, hup₁, hdown₁⟩ := h₁
  obtain ⟨hid₂, hg₂, he₂, hc₂, hp₂, hm₂, hpr₂, hr₂, hv₂, hup₂, hdown₂⟩ := h₂
  refine ⟨hid₂.trans hid₁, hg₂.trans hg₁, he₂.trans he₁, hc₂.trans hc₁,
    hp₂.trans hp₁, hm₂.trans hm₁, hpr₂.trans hpr₁, hr₂.trans hr₁, hv₂.trans hv₁,
    fun x hx => hup₂ x (hup₁ x hx), fun x hx => ?_⟩
  rcases hdown₂ x hx with hx' | hx'
  · rcases hdown₁ x hx' with hx'' | hx''
    · exact Or.inl hx''
    · exact Or.inr ⟨hx''.1, hid₂ ▸ hx''.2⟩
  · exact Or.inr ⟨hx'.1, hx'.2⟩

theorem linkRel_addChildren {K : Type} {S ps : List Nat} {p : Nat} (hp : p ∈ ps)
    (a : ImageMetadata K) (hq : (a.id == p) = true) :
    LinkRel S ps a (addChildrenIfAbsent S a) := by
  have hid : (addChildrenIfAbsent S a).id = a.id := rfl
  refine ⟨rfl, rfl, rfl, rfl, rfl, rfl, rfl, rfl, rfl, ?_, ?_⟩
  · intro c hc
    exact mem_childFold_of_mem_left S hc
  · intro c hc
    rcases mem_of_mem_childFold hc with h' | h'
    · exact Or.inl h'
    · refine Or.inr ⟨h', ?_⟩
      have hq' : a.id = p := by simpa using hq
      rw [hid, hq']
      exact hp

theorem idsOf_updateFirst {K : Type} {q : ImageMetadata K → Bool}
    {f : ImageMetadata K → ImageMetadata K} (hf : ∀ a, (f a).id = a.id)
    (l : List (ImageMetadata K)) : idsOf (updateFirst q f l) = idsOf l := by
  induction l with
  | nil => rfl
  | cons hd tl ih =>
    by_cases hq : q hd
    · simp [updateFirst, hq, idsOf, hf hd]
    · simpa [updateFirst, hq, idsOf] using ih

theorem forall₂_linkFold {K : Type} (S ps qs : List Nat)
    (hqs : ∀ r ∈ qs, r ∈ ps) (l : List (ImageMetadata K)) :
    List.Forall₂ (LinkRel S ps) l
      (qs.foldl (fun acc p =>
        updateFirst (fun img => img.id == p) (addChildrenIfAbsent S) acc) l) := by
  induction qs generalizing l with
  | nil => exact List.forall₂_same.2 fun a _ => linkRel_refl S ps a
  | cons q qs ih =>
    simp only [List.foldl_cons]
    refine forall₂_trans (R := LinkRel S ps) (fun a b c hab hbc => linkRel_trans hab hbc)
      ?_ (ih (fun r hr => hqs r (List.mem_cons_of_mem q hr)) _)
    exact forall₂_updateFirst (linkRel_refl S ps)
      (fun a ha => linkRel_addChildren (hqs q (List.mem_cons_self _ _)) a ha) l

theorem linkFold_children_added {K : Type} {S : List Nat} {p x : Nat}
    {qs : List Nat} (hp : p ∈ qs) {l : List (ImageMetadata K)}
    (hex : ∃ a ∈ l, a.id = p) (hx : x ∈ S) :
    ∃ P ∈ qs.foldl (fun acc r =>
        updateFirst (fun img => img.id == r) (addChildrenIfAbsent S) acc) l,
      P.id = p ∧ x ∈ P.children := by
  induction qs generalizing l with
  | nil => cases hp
  | cons q qs ih =>
    simp only [List.foldl_cons]
    by_cases hpq : p = q
    · subst hpq
      have hex' : ∃ a ∈ l, (a.id == p) = true := by
        rcases hex with ⟨a, ha, hid⟩
        exact ⟨a, ha, by simp [hid]⟩
      obtain ⟨l₁, a, l₂, _, hqa, _, hupd⟩ :=
        updateFirst_decomp (addChildrenIfAbsent S) hex'
      have hW : addChildrenIfAbsent S a ∈
          updateFirst (fun img => img.id == p) (addChildrenIfAbsent S) l := by
        rw [hupd]; exact List.mem_append.2 (Or.inr (List.mem_cons_self _ _))
      have hWid : (addChildrenIfAbsent S a).id = p := by simpa using hqa
      have hWx : x ∈ (addChildrenIfAbsent S a).children :=
        mem_childFold_of_mem_right hx
      obtain ⟨P, hP, hrel⟩ :=
        forall₂_mem_left (forall₂_linkFold S qs qs (fun r hr => hr) _)
          _ hW
      exact ⟨P, hP, hrel.1.trans hWid, hrel.2.2.2.2.2.2.2.2.2.1 x hWx⟩
    · have hp' : p ∈ qs := by
        rcases List.mem_cons.1 hp with h' | h'
        · exact absurd h' hpq
        · exact h'
      have hex' : ∃ a ∈ updateFirst (fun img => img.id == q)
          (addChildrenIfAbsent S) l, a.id = p := by
        have hids := idsOf_updateFirst (f := addChildrenIfAbsent S)
          (q := fun img => img.id == q) (fun a => rfl) l
        rcases hex with ⟨a, ha, hid⟩
        have : p ∈ idsOf (updateFirst (fun img => img.id == q)
            (addChildrenIfAbsent S) l) := by
          rw [hids]
          exact List.mem_map.2 ⟨a, ha, hid⟩
        rcases List.mem_map.1 this with ⟨b, hb, hbid⟩
        exact ⟨b, hb, hbid⟩
      exact ih hp' hex'

end SemanticCanvas

namespace SemanticCanvas

theorem mkBatchMetas_mem {K : Type} [CommRing K] {te : String → List K}
    {labels : AxisLabels} {use3d : Bool} {groupId method prompt : String}
    {parentIds : List Nat} {startId : Nat} {embs : List (List K)}
    {m : ImageMetadata K}
    (hm : m ∈ mkBatchMetas te labels use3d groupId method prompt parentIds startId embs) :
    m.parents = parentIds ∧ m.children = [] ∧ m.visible = true ∧
      m.referenceIds = parentIds ∧
      m.coordinates = projectEmbedding te labels use3d m.embedding ∧
      startId ≤ m.id ∧ m.id < startId + embs.length := by
  induction embs generalizing startId with
  | nil => cases hm
  | cons e rest ih =>
    rcases List.mem_cons.1 hm with rfl | hm'
    · exact ⟨rfl, rfl, rfl, rfl, rfl, le_refl _, by simp⟩
    · obtain ⟨h1, h2, h3, h4, h5, h6, h7⟩ := ih hm'
      exact ⟨h1, h2, h3, h4, h5, le_trans (Nat.le_succ _) h6, by
        simpa [Nat.add_comm, Nat.add_left_comm, Nat.succ_eq_add_one] using h7⟩

theorem pairwise_idsOf_mkBatchMetas {K : Type} [CommRing K] {te : String → List K}
    {labels : AxisLabels} {use3d : Bool} {groupId method prompt : String}
    {parentIds : List Nat} (startId : Nat) (embs : List (List K)) :
    List.Pairwise (· < ·)
      (idsOf (mkBatchMetas te labels use3d groupId method prompt parentIds startId embs)) := by
  induction embs generalizing startId with
  | nil => exact List.Pairwise.nil
  | cons e rest ih =>
    refine List.Pairwise.cons ?_ (ih (startId + 1))
    intro y hy
    rcases List.mem_map.1 hy with ⟨m, hm, rfl⟩
    exact lt_of_lt_of_le (Nat.lt_succ_self _) (mkBatchMetas_mem hm).2.2.2.2.2.1

theorem length_mkBatchMetas {K : Type} [CommRing K] {te : String → List K}
    {labels : AxisLabels} {use3d : Bool} {groupId method prompt : String}
    {parentIds : List Nat} (startId : Nat) (embs : List (List K)) :
    (mkBatchMetas te labels use3d groupId method prompt parentIds startId embs).length =
      embs.length := by
  induction embs generalizing startId with
  | nil => rfl
  | cons e rest ih => simpa [mkBatchMetas] using ih (startId + 1)

theorem bidirClosed_of_forall₂_genEq {K : Type} {l l' : List (ImageMetadata K)}
    (h : List.Forall₂
      (fun a b => b.id = a.id ∧ b.parents = a.parents ∧ b.children = a.children) l l')
    (hc : bidirClosed l) : bidirClosed l' := by
  intro b hb
  obtain ⟨a, ha, hid, hp, hch⟩ := forall₂_mem_right h b hb
  constructor
  · intro p hp'
    rw [hp] at hp'
    obtain ⟨P, hP, hPid, hPch⟩ := (hc a ha).1 p hp'
    obtain ⟨P', hP', hid', hpar', hch'⟩ := forall₂_mem_left h P hP
    exact ⟨P', hP', hid'.trans hPid, by rw [hch', hid]; exact hPch⟩
  · intro c hc'
    rw [hch] at hc'
    obtain ⟨C, hC, hCid, hCpar⟩ := (hc a ha).2 c hc'
    obtain ⟨C', hC', hid', hpar', _⟩ := forall₂_mem_left h C hC
    exact ⟨C', hC', hid'.trans hCid, by rw [hpar', hid]; exact hCpar⟩

theorem bidirClosed_append_fresh {K : Type} {l new : List (ImageMetadata K)}
    (hl : bidirClosed l) (hnew : ∀ m ∈ new, m.parents = [] ∧ m.children = []) :
    bidirClosed (l ++ new) := by
  intro a ha
  rcases List.mem_append.1 ha with ha' | ha'
  · refine ⟨fun p hp => ?_, fun c hc => ?_⟩
    · obtain ⟨P, hP, h1, h2⟩ := (hl a ha').1 p hp
      exact ⟨P, List.mem_append_left _ hP, h1, h2⟩
    · obtain ⟨C, hC, h1, h2⟩ := (hl a ha').2 c hc
      exact ⟨C, List.mem_append_left _ hC, h1, h2⟩
  · refine ⟨fun p hp => ?_, fun c hc => ?_⟩
    · rw [(hnew a ha').1] at hp; cases hp
    · rw [(hnew a ha').2] at hc; cases hc

end SemanticCanvas

namespace SemanticCanvas

theorem linkRel_appendChild {K : Type} {S ps : List Nat} {p nid : Nat}
    (hp : p ∈ ps) (hnid : nid ∈ S) (a : ImageMetadata K) (hq : (a.id == p) = true) :
    LinkRel S ps a { a with children := a.children ++ [nid] } := by
  have hq' : a.id = p := by simpa using hq
  refine ⟨rfl, rfl, rfl, rfl, rfl, rfl, rfl, rfl, rfl, ?_, ?_⟩
  · intro c hc
    exact List.mem_append_left _ hc
  · intro c hc
    rcases List.mem_append.1 hc with h' | h'
    · exact Or.inl h'
    · refine Or.inr ⟨?_, ?_⟩
      · rw [List.mem_singleton.1 h']; exact hnid
      · show a.id ∈ ps
        rw [hq']; exact hp

theorem bidirClosed_generateImages {K : Type} [CommRing K] {te : String → List K}
    {s : AppState K} {prompt : String} {embs : List (List K)}
    (hc : bidirClosed s.imagesMetadata) :
    bidirClosed (generateImages te s prompt embs).imagesMetadata := by
  refine bidirClosed_append_fresh hc fun m hm => ?_
  exact ⟨(mkBatchMetas_mem hm).1, (mkBatchMetas_mem hm).2.1⟩

theorem bidirClosed_deleteImage {K : Type} {s s' : AppState K} {imageId : Nat}
    (h : deleteImage s imageId = .ok s') (hc : bidirClosed s.imagesMetadata) :
    bidirClosed s'.imagesMetadata := by
  unfold deleteImage at h
  by_cases hany : s.imagesMetadata.any (fun img => img.id == imageId)
  · rw [if_pos hany] at h
    injection h with h
    subst h
    refine bidirClosed_of_forall₂_genEq ?_ hc
    exact forall₂_updateFirst (fun a => ⟨rfl, rfl, rfl⟩) (fun a _ => ⟨rfl, rfl, rfl⟩) _
  · rw [if_neg hany] at h
    cases h

theorem bidirClosed_map_coords {K : Type} {l : List (ImageMetadata K)}
    (g : ImageMetadata K → List K) (hc : bidirClosed l) :
    bidirClosed (l.map (fun img => { img with coordinates := g img })) := by
  refine bidirClosed_of_forall₂_genEq ?_ hc
  have : ∀ a ∈ l, (fun a b =>
      b.id = a.id ∧ b.parents = a.parents ∧ b.children = a.children) a
        { a with coordinates := g a } := fun a _ => ⟨rfl, rfl, rfl⟩
  exact List.forall₂_map_right_iff.2 (List.forall₂_same.2 this)

end SemanticCanvas

namespace SemanticCanvas

theorem bidirClosed_generateFromReference {K : Type} [CommRing K]
    {te : String → List K} {s s' : AppState K} {rid : Nat} {prompt : String}
    {emb : List K} (h : generateFromReference te s rid prompt emb = .ok s')
    (hc : bidirClosed s.imagesMetadata) : bidirClosed s'.imagesMetadata := by
  unfold generateFromReference at h
  cases hfind : s.imagesMetadata.find? (fun img => img.id == rid) with
  | none => rw [hfind] at h; cases h
  | some m =>
    rw [hfind] at h
    injection h with h
    subst h
    have hmem := List.mem_of_find?_eq_some hfind
    have hpm := List.find?_some hfind
    have hex : ∃ a ∈ s.imagesMetadata, (a.id == rid) = true := ⟨m, hmem, hpm⟩
    set nid := s.nextId with hnid
    set f : ImageMetadata K → ImageMetadata K :=
      fun img => { img with children := img.children ++ [nid] } with hf
    set updated := updateFirst (fun img => img.id == rid) f s.imagesMetadata with hupdated
    have hF : List.Forall₂ (LinkRel [nid] [rid]) s.imagesMetadata updated :=
      forall₂_updateFirst (linkRel_refl _ _)
        (fun a ha => linkRel_appendChild (List.mem_singleton.2 rfl)
          (List.mem_singleton.2 rfl) a ha) _
    obtain ⟨l₁, a, l₂, _, hqa, _, hupd⟩ := updateFirst_decomp f hex
    have hWmem : f a ∈ updated := by
      rw [hupdated, hupd]
      exact List.mem_append.2 (Or.inr (List.mem_cons_self _ _))
    have hWid : (f a).id = rid := by simpa [hf] using hqa
    have hWch : nid ∈ (f a).children := by
      simp [hf]
    intro b hb
    rcases List.mem_append.1 hb with hb' | hb'
    · obtain ⟨a0, ha0, hrel⟩ := forall₂_mem_right hF b hb'
      obtain ⟨hid, _, _, _, hpar, _, _, _, _, hup, hdown⟩ := hrel
      refine ⟨fun p hp => ?_, fun c hcc => ?_⟩
      · rw [hpar] at hp
        obtain ⟨P, hP, hPid, hPch⟩ := (hc a0 ha0).1 p hp
        obtain ⟨P', hP', hrelP⟩ := forall₂_mem_left hF P hP
        obtain ⟨hidP, _, _, _, _, _, _, _, _, hupP, _⟩ := hrelP
        refine ⟨P', List.mem_append_left _ hP', hidP.trans hPid, ?_⟩
        rw [hid]
        exact hupP _ hPch
      · rcases hdown c hcc with hin | ⟨hcS, hbid⟩
        · obtain ⟨C, hC, hCid, hCpar⟩ := (hc a0 ha0).2 c hin
          obtain ⟨C', hC', hrelC⟩ := forall₂_mem_left hF C hC
          obtain ⟨hidC, _, _, _, hparC, _, _, _, _, _, _⟩ := hrelC
          refine ⟨C', List.mem_append_left _ hC', hidC.trans hCid, ?_⟩
          rw [hparC, hid]
          exact hCpar
        · refine ⟨_, List.mem_append_right _ (List.mem_singleton.2 rfl), ?_, ?_⟩
          · show nid = c
            exact (List.mem_singleton.1 hcS).symm
          · show b.id ∈ [rid]
            exact hbid
    · rw [List.mem_singleton.1 hb']
      refine ⟨fun p hp => ?_, fun c hcc => ?_⟩
      · refine ⟨f a, List.mem_append_left _ hWmem, ?_, ?_⟩
        · rw [hWid]
          exact (List.mem_singleton.1 hp).symm
        · show nid ∈ (f a).children
          exact hWch
      · cases hcc

end SemanticCanvas

namespace SemanticCanvas

theorem bidirClosed_interpolateImages {K : Type} [CommRing K]
    {te : String → List K} {s s' : AppState K} {ida idb : Nat} {emb : List K}
    (h : interpolateImages te s ida idb emb = .ok s')
    (hc : bidirClosed s.imagesMetadata) : bidirClosed s'.imagesMetadata := by
  unfold interpolateImages at h
  cases hfa : s.imagesMetadata.find? (fun img => img.id == ida) with
  | none => rw [hfa] at h; cases h
  | some ma =>
  cases hfb : s.imagesMetadata.find? (fun img => img.id == idb) with
  | none => rw [hfa, hfb] at h; cases h
  | some mb =>
  rw [hfa, hfb] at h
  injection h with h
  subst h
  have hmema := List.mem_of_find?_eq_some hfa
  have hpa := List.find?_some hfa
  have hmemb := List.mem_of_find?_eq_some hfb
  have hpb := List.find?_some hfb
  set nid := s.nextId with hnid
  set f : ImageMetadata K → ImageMetadata K :=
    fun img => { img with children := img.children ++ [nid] } with hf
  set upd1 := updateFirst (fun img => img.id == ida) f s.imagesMetadata with hupd1def
  set updated := updateFirst (fun img => img.id == idb) f upd1 with hupdated
  have hstep : ∀ p ∈ [ida, idb], ∀ a : ImageMetadata K, (a.id == p) = true →
      LinkRel [nid] [ida, idb] a (f a) := fun p hp a ha =>
    linkRel_appendChild hp (List.mem_singleton.2 rfl) a ha
  have hF1 : List.Forall₂ (LinkRel [nid] [ida, idb]) s.imagesMetadata upd1 :=
    forall₂_updateFirst (linkRel_refl _ _)
      (hstep ida (List.mem_cons_self _ _)) _
  have hF2 : List.Forall₂ (LinkRel [nid] [ida, idb]) upd1 updated :=
    forall₂_updateFirst (linkRel_refl _ _)
      (hstep idb (List.mem_cons_of_mem _ (List.mem_singleton.2 rfl))) _
  have hF : List.Forall₂ (LinkRel [nid] [ida, idb]) s.imagesMetadata updated :=
    forall₂_trans (R := LinkRel [nid] [ida, idb])
      (fun a b c hab hbc => linkRel_trans hab hbc) hF1 hF2
  have hexa : ∃ a ∈ s.imagesMetadata, (a.id == ida) = true := ⟨ma, hmema, hpa⟩
  obtain ⟨l₁, a₁, l₂, _, hqa₁, _, hupd₁⟩ := updateFirst_decomp f hexa
  have hW1mem : f a₁ ∈ upd1 := by
    rw [hupd1def, hupd₁]
    exact List.mem_append.2 (Or.inr (List.mem_cons_self _ _))
  have hW1id : (f a₁).id = ida := by simpa [hf] using hqa₁
  have hW1ch : nid ∈ (f a₁).children := by simp [hf]
  obtain ⟨Wa, hWamem, hrelWa⟩ := forall₂_mem_left hF2 _ hW1mem
  have hWaid : Wa.id = ida := hrelWa.1.trans hW1id
  have hWach : nid ∈ Wa.children := hrelWa.2.2.2.2.2.2.2.2.2.1 _ hW1ch
  have hexb' : ∃ a ∈ upd1, (a.id == idb) = true := by
    have hidb : idb ∈ idsOf upd1 := by
      have hids := idsOf_updateFirst (q := fun img => img.id == ida) (f := f)
        (fun a => rfl) s.imagesMetadata
      rw [hupd1def, hids]
      exact List.mem_map.2 ⟨mb, hmemb, by simpa using hpb⟩
    rcases List.mem_map.1 hidb with ⟨b, hb, hbid⟩
    exact ⟨b, hb, by simpa using hbid⟩
  obtain ⟨l₃, a₂, l₄, _, hqa₂, _, hupd₂⟩ := updateFirst_decomp f hexb'
  have hWbmem : f a₂ ∈ updated := by
    rw [hupdated, hupd₂]
    exact List.mem_append.2 (Or.inr (List.mem_cons_self _ _))
  have hWbid : (f a₂).id = idb := by simpa [hf] using hqa₂
  have hWbch : nid ∈ (f a₂).children := by simp [hf]
  intro b hb
  rcases List.mem_append.1 hb with hb' | hb'
  · obtain ⟨a0, ha0, hrel⟩ := forall₂_mem_right hF b hb'
    obtain ⟨hid, _, _, _, hpar, _, _, _, _, hup, hdown⟩ := hrel
    refine ⟨fun p hp => ?_, fun c hcc => ?_⟩
    · rw [hpar] at hp
      obtain ⟨P, hP, hPid, hPch⟩ := (hc a0 ha0).1 p hp
      obtain ⟨P', hP', hrelP⟩ := forall₂_mem_left hF P hP
      refine ⟨P', List.mem_append_left _ hP', hrelP.1.trans hPid, ?_⟩
      rw [hid]
      exact hrelP.2.2.2.2.2.2.2.2.2.1 _ hPch
    · rcases hdown c hcc with hin | ⟨hcS, hbid⟩
      · obtain ⟨C, hC, hCid, hCpar⟩ := (hc a0 ha0).2 c hin
        obtain ⟨C', hC', hrelC⟩ := forall₂_mem_left hF C hC
        refine ⟨C', List.mem_append_left _ hC', hrelC.1.trans hCid, ?_⟩
        rw [hrelC.2.2.2.2.1, hid]
        exact hCpar
      · refine ⟨_, List.mem_append_right _ (List.mem_singleton.2 rfl), ?_, ?_⟩
        · show nid = c
          exact (List.mem_singleton.1 hcS).symm
        · show b.id ∈ [ida, idb]
          exact hbid
  · rw [List.mem_singleton.1 hb']
    refine ⟨fun p hp => ?_, fun c hcc => ?_⟩
    · rcases List.mem_cons.1 hp with rfl | hp'
      · exact ⟨Wa, List.mem_append_left _ hWamem, hWaid, hWach⟩
      · rw [List.mem_singleton.1 hp']
        exact ⟨f a₂, List.mem_append_left _ hWbmem, hWbid, hWbch⟩
    · cases hcc

end SemanticCanvas

namespace SemanticCanvas

theorem bidirClosed_addExternalImages {K : Type} [CommRing K]
    {te : String → List K} {s : AppState K} {req : AddExternalImagesRequest}
    {embs : List (List K)}
    (hpe : ∀ p ∈ req.parentIds, ∃ a ∈ s.imagesMetadata, a.id = p)
    (hc : bidirClosed s.imagesMetadata) :
    bidirClosed (addExternalImages te s req embs).imagesMetadata := by
  set batch := mkBatchMetas te s.axisLabels s.is3dMode
    (req.generationMethod ++ "_" ++ toString s.historyGroups.length)
    req.generationMethod req.prompt req.parentIds s.nextId embs with hbatch
  set S := batch.map (fun m => m.id) with hS
  set ext := s.imagesMetadata ++ batch with hext
  show bidirClosed (req.parentIds.foldl
    (fun acc p => updateFirst (fun img => img.id == p) (addChildrenIfAbsent S) acc) ext)
  have hF : List.Forall₂ (LinkRel S req.parentIds) ext
      (req.parentIds.foldl
        (fun acc p => updateFirst (fun img => img.id == p) (addChildrenIfAbsent S) acc)
        ext) :=
    forall₂_linkFold S req.parentIds req.parentIds (fun r hr => hr) ext
  intro b hb
  obtain ⟨a0, ha0, hrel⟩ := forall₂_mem_right hF b hb
  obtain ⟨hid, _, _, _, hpar, _, _, _, _, hup, hdown⟩ := hrel
  rcases List.mem_append.1 ha0 with hold | hbat
  · refine ⟨fun p hp => ?_, fun c hcc => ?_⟩
    · rw [hpar] at hp
      obtain ⟨P, hP, hPid, hPch⟩ := (hc a0 hold).1 p hp
      obtain ⟨P', hP', hrelP⟩ := forall₂_mem_left hF P (List.mem_append_left _ hP)
      refine ⟨P', hP', hrelP.1.trans hPid, ?_⟩
      rw [hid]
      exact hrelP.2.2.2.2.2.2.2.2.2.1 _ hPch
    · rcases hdown c hcc with hin | ⟨hcS, hbps⟩
      · obtain ⟨C, hC, hCid, hCpar⟩ := (hc a0 hold).2 c hin
        obtain ⟨C', hC', hrelC⟩ := forall₂_mem_left hF C (List.mem_append_left _ hC)
        refine ⟨C', hC', hrelC.1.trans hCid, ?_⟩
        rw [hrelC.2.2.2.2.1, hid]
        exact hCpar
      · rcases List.mem_map.1 hcS with ⟨C, hCbat, hCid⟩
        have hCpar : C.parents = req.parentIds := (mkBatchMetas_mem hCbat).1
        obtain ⟨C', hC', hrelC⟩ := forall₂_mem_left hF C (List.mem_append_right _ hCbat)
        refine ⟨C', hC', hrelC.1.trans hCid, ?_⟩
        rw [hrelC.2.2.2.2.1, hCpar]
        exact hbps
  · have hbpar : a0.parents = req.parentIds := (mkBatchMetas_mem hbat).1
    have hbch : a0.children = [] := (mkBatchMetas_mem hbat).2.1
    refine ⟨fun p hp => ?_, fun c hcc => ?_⟩
    · rw [hpar, hbpar] at hp
      have hex : ∃ r ∈ ext, r.id = p := by
        rcases hpe p hp with ⟨r, hr, hrid⟩
        exact ⟨r, List.mem_append_left _ hr, hrid⟩
      have hxS : b.id ∈ S := by
        rw [hid]
        exact List.mem_map.2 ⟨a0, hbat, rfl⟩
      exact linkFold_children_added hp hex hxS
    · rcases hdown c hcc with hin | ⟨hcS, hbps⟩
      · rw [hbch] at hin; cases hin
      · rcases List.mem_map.1 hcS with ⟨C, hCbat, hCid⟩
        have hCpar : C.parents = req.parentIds := (mkBatchMetas_mem hCbat).1
        obtain ⟨C', hC', hrelC⟩ := forall₂_mem_left hF C (List.mem_append_right _ hCbat)
        refine ⟨C', hC', hrelC.1.trans hCid, ?_⟩
        rw [hrelC.2.2.2.2.1, hCpar]
        exact hbps

end SemanticCanvas

namespace SemanticCanvas

theorem idsOf_append {K : Type} (l₁ l₂ : List (ImageMetadata K)) :
    idsOf (l₁ ++ l₂) = idsOf l₁ ++ idsOf l₂ := List.map_append _ _ _

theorem idsOf_lt_iff {K : Type} {l : List (ImageMetadata K)} {n : Nat} :
    (∀ a ∈ l, a.id < n) ↔ ∀ x ∈ idsOf l, x < n := by
  constructor
  · intro h x hx
    rcases List.mem_map.1 hx with ⟨a, ha, rfl⟩
    exact h a ha
  · intro h a ha
    exact h a.id (List.mem_map.2 ⟨a, ha, rfl⟩)

theorem mem_idsOf_mkBatchMetas {K : Type} [CommRing K] {te : String → List K}
    {labels : AxisLabels} {use3d : Bool} {groupId method prompt : String}
    {parentIds : List Nat} {startId : Nat} {embs : List (List K)} {x : Nat}
    (hx : x ∈ idsOf (mkBatchMetas te labels use3d groupId method prompt parentIds
      startId embs)) : startId ≤ x ∧ x < startId + embs.length := by
  rcases List.mem_map.1 hx with ⟨m, hm, rfl⟩
  exact ⟨(mkBatchMetas_mem hm).2.2.2.2.2.1, (mkBatchMetas_mem hm).2.2.2.2.2.2⟩

theorem idsOf_linkFold {K : Type} (S : List Nat) (qs : List Nat)
    (l : List (ImageMetadata K)) :
    idsOf (qs.foldl (fun acc p =>
      updateFirst (fun img => img.id == p) (addChildrenIfAbsent S) acc) l) =
      idsOf l := by
  induction qs generalizing l with
  | nil => rfl
  | cons q qs ih =>
    simp only [List.foldl_cons]
    rw [ih]
    exact idsOf_updateFirst (by intro a; rfl) _

theorem pairwise_batch_extend {K : Type} {l : List (ImageMetadata K)}
    {newIds : List Nat} {n : Nat}
    (hpw : List.Pairwise (· < ·) (idsOf l)) (hbound : ∀ a ∈ l, a.id < n)
    (hnewpw : List.Pairwise (· < ·) newIds) (hnewlo : ∀ x ∈ newIds, n ≤ x) :
    List.Pairwise (· < ·) (idsOf l ++ newIds) := by
  rw [List.pairwise_append]
  refine ⟨hpw, hnewpw, fun a ha b hb => ?_⟩
  have ha' : a < n := idsOf_lt_iff.1 hbound a ha
  exact lt_of_lt_of_le ha' (hnewlo b hb)

theorem idInv_generateImages {K : Type} [CommRing K] {te : String → List K}
    {s : AppState K} {prompt : String} {embs : List (List K)}
    (h : idInv s) : idInv (generateImages te s prompt embs) := by
  obtain ⟨hpw, hbound⟩ := h
  constructor
  · show List.Pairwise (· < ·) (idsOf (s.imagesMetadata ++ _))
    rw [idsOf_append]
    exact pairwise_batch_extend hpw hbound (pairwise_idsOf_mkBatchMetas _ _)
      (fun x hx => (mem_idsOf_mkBatchMetas hx).1)
  · rw [idsOf_lt_iff]
    show ∀ x ∈ idsOf (s.imagesMetadata ++ _), x < s.nextId + embs.length
    rw [idsOf_append]
    intro x hx
    rcases List.mem_append.1 hx with hx' | hx'
    · exact lt_of_lt_of_le (idsOf_lt_iff.1 hbound x hx') (Nat.le_add_right _ _)
    · exact (mem_idsOf_mkBatchMetas hx').2

theorem idInv_generateFromReference {K : Type} [CommRing K]
    {te : String → List K} {s s' : AppState K} {rid : Nat} {prompt : String}
    {emb : List K} (h : generateFromReference te s rid prompt emb = .ok s')
    (hinv : idInv s) : idInv s' := by
  unfold generateFromReference at h
  cases hfind : s.imagesMetadata.find? (fun img => img.id == rid) with
  | none => rw [hfind] at h; cases h
  | some m =>
    rw [hfind] at h
    injection h with h
    subst h
    obtain ⟨hpw, hbound⟩ := hinv
    have hids : idsOf (updateFirst (fun img => img.id == rid)
        (fun img => { img with children := img.children ++ [s.nextId] })
        s.imagesMetadata) = idsOf s.imagesMetadata :=
      idsOf_updateFirst (by intro a; rfl) _
    constructor
    · show List.Pairwise (· < ·) (idsOf (_ ++ [_]))
      rw [idsOf_append, hids]
      refine pairwise_batch_extend hpw hbound (by simp [idsOf]) ?_
      intro x hx
      rcases List.mem_map.1 hx with ⟨a, ha, rfl⟩
      rw [List.mem_singleton.1 ha]
    · rw [idsOf_lt_iff]
      show ∀ x ∈ idsOf (_ ++ [_]), x < s.nextId + 1
      rw [idsOf_append, hids]
      intro x hx
      rcases List.mem_append.1 hx with hx' | hx'
      · exact lt_of_lt_of_le (idsOf_lt_iff.1 hbound x hx') (Nat.le_succ _)
      · rcases List.mem_map.1 hx' with ⟨a, ha, rfl⟩
        rw [List.mem_singleton.1 ha]
        exact Nat.lt_succ_self _

theorem idInv_interpolateImages {K : Type} [CommRing K]
    {te : String → List K} {s s' : AppState K} {ida idb : Nat} {emb : List K}
    (h : interpolateImages te s ida idb emb = .ok s')
    (hinv : idInv s) : idInv s' := by
  unfold interpolateImages at h
  cases hfa : s.imagesMetadata.find? (fun img => img.id == ida) with
  | none => rw [hfa] at h; cases h
  | some ma =>
  cases hfb : s.imagesMetadata.find? (fun img => img.id == idb) with
  | none => rw [hfa, hfb] at h; cases h
  | some mb =>
  rw [hfa, hfb] at h
  injection h with h
  subst h
  obtain ⟨hpw, hbound⟩ := hinv
  have hids : idsOf (updateFirst (fun img => img.id == idb)
      (fun img => { img with children := img.children ++ [s.nextId] })
      (updateFirst (fun img => img.id == ida)
        (fun img => { img with children := img.children ++ [s.nextId] })
        s.imagesMetadata)) = idsOf s.imagesMetadata := by
    rw [idsOf_updateFirst (by intro a; rfl), idsOf_updateFirst (by intro a; rfl)]
  constructor
  · show List.Pairwise (· < ·) (idsOf (_ ++ [_]))
    rw [idsOf_append, hids]
    refine pairwise_batch_extend hpw hbound (by simp [idsOf]) ?_
    intro x hx
    rcases List.mem_map.1 hx with ⟨a, ha, rfl⟩
    rw [List.mem_singleton.1 ha]
  · rw [idsOf_lt_iff]
    show ∀ x ∈ idsOf (_ ++ [_]), x < s.nextId + 1
    rw [idsOf_append, hids]
    intro x hx
    rcases List.mem_append.1 hx with hx' | hx'
    · exact lt_of_lt_of_le (idsOf_lt_iff.1 hbound x hx') (Nat.le_succ _)
    · rcases List.mem_map.1 hx' with ⟨a, ha, rfl⟩
      rw [List.mem_singleton.1 ha]
      exact Nat.lt_succ_self _

theorem idInv_addExternalImages {K : Type} [CommRing K]
    {te : String → List K} {s : AppState K} {req : AddExternalImagesRequest}
    {embs : List (List K)} (h : idInv s) :
    idInv (addExternalImages te s req embs) := by
  obtain ⟨hpw, hbound⟩ := h
  constructor
  · show List.Pairwise (· < ·) (idsOf (req.parentIds.foldl _ (s.imagesMetadata ++ _)))
    rw [idsOf_linkFold, idsOf_append]
    exact pairwise_batch_extend hpw hbound (pairwise_idsOf_mkBatchMetas _ _)
      (fun x hx => (mem_idsOf_mkBatchMetas hx).1)
  · rw [idsOf_lt_iff]
    show ∀ x ∈ idsOf (req.parentIds.foldl _ (s.imagesMetadata ++ _)),
      x < s.nextId + embs.length
    rw [idsOf_linkFold, idsOf_append]
    intro x hx
    rcases List.mem_append.1 hx with hx' | hx'
    · exact lt_of_lt_of_le (idsOf_lt_iff.1 hbound x hx') (Nat.le_add_right _ _)
    · exact (mem_idsOf_mkBatchMetas hx').2

theorem idInv_deleteImage {K : Type} {s s' : AppState K} {imageId : Nat}
    (h : deleteImage s imageId = .ok s') (hinv : idInv s) : idInv s' := by
  unfold deleteImage at h
  by_cases hany : s.imagesMetadata.any (fun img => img.id == imageId)
  · rw [if_pos hany] at h
    injection h with h
    subst h
    obtain ⟨hpw, hbound⟩ := hinv
    have hids := idsOf_updateFirst
      (q := fun img => img.id == imageId)
      (f := fun img => { img with visible := false }) (fun a => rfl)
      s.imagesMetadata
    constructor
    · show List.Pairwise (· < ·) (idsOf _)
      rw [hids]; exact hpw
    · rw [idsOf_lt_iff]
      show ∀ x ∈ idsOf _, x < s.nextId
      rw [hids]
      exact idsOf_lt_iff.1 hbound
  · rw [if_neg hany] at h
    cases h

theorem idsOf_map_coords {K : Type} (l : List (ImageMetadata K))
    (g : ImageMetadata K → List K) :
    idsOf (l.map (fun img => { img with coordinates := g img })) = idsOf l := by
  unfold idsOf
  rw [List.map_map]
  rfl

end SemanticCanvas

namespace SemanticCanvas

/-- Claim C1, corrected.  Bidirectional genealogy closure is preserved by
every mutating operation — generate, generate-from-reference, interpolate,
soft-delete, clear, update-axes, set-3d-mode — and by add-external-images
PROVIDED every parent id listed in the request already names a record in
the store (opParentsExist).  The proviso is forced by the code: a request
with an absent parent id is not rejected, it commits child records whose
parents list dangles (see the counterexample), so closure is an invariant
only of the runs whose add-external-images requests name existing
parents. -/
theorem claim1_closure_preserved_by_steps {K : Type} [CommRing K]
    (te : String → List K) (s s' : AppState K) (op : Op K)
    (h : stepResult te s op = .ok s') (hc : bidirClosed s.imagesMetadata)
    (hpe : opParentsExist s op) : bidirClosed s'.imagesMetadata := by
  cases op with
  | generate prompt embs =>
    injection h with h
    subst h
    exact bidirClosed_generateImages hc
  | genFromReference r prompt emb =>
    exact bidirClosed_generateFromReference h hc
  | interpolate ida idb emb =>
    exact bidirClosed_interpolateImages h hc
  | addExternal req embs =>
    injection h with h
    subst h
    exact bidirClosed_addExternalImages hpe hc
  | softDelete i =>
    exact bidirClosed_deleteImage h hc
  | clearOp =>
    injection h with h
    subst h
    exact fun a ha => absurd ha (List.not_mem_nil a)
  | updateAxes req =>
    injection h with h
    subst h
    exact bidirClosed_map_coords _ hc
  | set3d b =>
    injection h with h
    subst h
    exact bidirClosed_map_coords _ hc

/-- Witness for C1: a concrete generate-from-reference step on the
one-artifact store, with every hypothesis discharged on that input. -/
theorem claim1_closure_preserved_by_steps_witness :
    bidirClosed (((stepResult te0 exState1
      (Op.genFromReference 0 "child" [2])).toOption.getD
        (initialState ℚ)).imagesMetadata) := by
  have h : stepResult te0 exState1 (Op.genFromReference 0 "child" [2]) =
      .ok ((stepResult te0 exState1 (Op.genFromReference 0 "child" [2])).toOption.getD
        (initialState ℚ)) := rfl
  exact claim1_closure_preserved_by_steps te0 exState1 _ _ h (by decide) trivial

/-- Counterexample for C1 as stated: starting from the closed one-artifact
store, the add-external-images operation with the absent parent id 7
succeeds and commits a store that violates bidirectional closure (the new
record's parents list dangles). -/
theorem claim1_closure_counterexample :
    bidirClosed exState1.imagesMetadata ∧
      stepResult te0 exState1 (Op.addExternal reqDangling [[2]]) =
        .ok (addExternalImages te0 exState1 reqDangling [[2]]) ∧
      ¬ bidirClosed (addExternalImages te0 exState1 reqDangling [[2]]).imagesMetadata := by
  refine ⟨by decide, rfl, by decide⟩

/-- Claim C8, confirmed.  Every successful mutating operation preserves
the id invariant: record ids are strictly increasing in creation (list)
order — hence unique — and all lie below the next_id counter; and clear
resets the counter to 0 together with removing all artifacts. -/
theorem claim8_ids_unique_increasing {K : Type} [CommRing K]
    (te : String → List K) (s s' : AppState K) (op : Op K)
    (h : stepResult te s op = .ok s') (hinv : idInv s) :
    idInv s' ∧ (clearCanvas s).nextId = 0 ∧ (clearCanvas s).imagesMetadata = [] := by
  refine ⟨?_, rfl, rfl⟩
  cases op with
  | generate prompt embs =>
    injection h with h
    subst h
    exact idInv_generateImages hinv
  | genFromReference r prompt emb =>
    exact idInv_generateFromReference h hinv
  | interpolate ida idb emb =>
    exact idInv_interpolateImages h hinv
  | addExternal req embs =>
    injection h with h
    subst h
    exact idInv_addExternalImages hinv
  | softDelete i =>
    exact idInv_deleteImage h hinv
  | clearOp =>
    injection h with h
    subst h
    exact ⟨List.Pairwise.nil, fun a ha => absurd ha (List.not_mem_nil a)⟩
  | updateAxes req =>
    injection h with h
    subst h
    obtain ⟨hpw, hbound⟩ := hinv
    constructor
    · show List.Pairwise (· < ·) (idsOf (List.map _ _))
      rw [idsOf_map_coords]
      exact hpw
    · rw [idsOf_lt_iff]
      show ∀ x ∈ idsOf (List.map _ _), x < s.nextId
      rw [idsOf_map_coords]
      exact idsOf_lt_iff.1 hbound
  | set3d b =>
    injection h with h
    subst h
    obtain ⟨hpw, hbound⟩ := hinv
    constructor
    · show List.Pairwise (· < ·) (idsOf (List.map _ _))
      rw [idsOf_map_coords]
      exact hpw
    · rw [idsOf_lt_iff]
      show ∀ x ∈ idsOf (List.map _ _), x < s.nextId
      rw [idsOf_map_coords]
      exact idsOf_lt_iff.1 hbound

/-- Witness for C8: a concrete generate step creating two records on the
one-artifact store, with every hypothesis discharged on that input. -/
theorem claim8_ids_unique_increasing_witness :
    idInv (generateImages te0 exState1 "two" [[2], [3]]) ∧
      (clearCanvas exState1).nextId = 0 ∧
      (clearCanvas exState1).imagesMetadata = [] := by
  exact claim8_ids_unique_increasing te0 exState1 _
    (Op.generate "two" [[2], [3]]) rfl (by decide)

end SemanticCanvas

namespace SemanticCanvas

/-- Counterexample for C2 as stated: on the one-artifact store (only id 0
exists) the add-external-images request naming the absent parent id 7
commits: the store afterwards holds a new artifact with id 1 whose parents
list is exactly [7] — no DanglingParent failure, and an artifact IS
inserted whose parents contain the absent id. -/
theorem claim2_counterexample :
    ((addExternalImages te0 exState1 reqDangling [[2]]).imagesMetadata.map
      (fun r => (r.id, r.parents))) = [(0, []), (1, [7])] ∧
      ∀ a ∈ exState1.imagesMetadata, a.id ≠ 7 := by
  exact ⟨by decide, by decide⟩

/-- Claim C2, corrected.  The add-external-images endpoint performs no
parent-existence check at all: for every state, every request, every
non-empty batch and every listed parent id p — present in the store or
not — the operation succeeds and commits a first new record carrying
id = next_id and parents = parent_ids, so p sits in that record's parents
list.  An absent parent id is merely logged and skipped during the
children update. -/
theorem claim2_no_dangling_parent_check {K : Type} [CommRing K]
    (te : String → List K) (s : AppState K) (req : AddExternalImagesRequest)
    (embs : List (List K)) (p : Nat) (hne : embs ≠ []) (hp : p ∈ req.parentIds) :
    stepResult te s (Op.addExternal req embs) =
      .ok (addExternalImages te s req embs) ∧
    ∃ r ∈ (addExternalImages te s req embs).imagesMetadata,
      r.id = s.nextId ∧ r.parents = req.parentIds ∧ p ∈ r.parents := by
  refine ⟨rfl, ?_⟩
  cases embs with
  | nil => exact absurd rfl hne
  | cons e rest =>
    set batch := mkBatchMetas te s.axisLabels s.is3dMode
      (req.generationMethod ++ "_" ++ toString s.historyGroups.length)
      req.generationMethod req.prompt req.parentIds s.nextId (e :: rest) with hbatch
    set S := batch.map (fun m => m.id) with hS
    set ext := s.imagesMetadata ++ batch with hext
    show ∃ r ∈ req.parentIds.foldl
      (fun acc q => updateFirst (fun img => img.id == q) (addChildrenIfAbsent S) acc)
      ext, r.id = s.nextId ∧ r.parents = req.parentIds ∧ p ∈ r.parents
    have hF := forall₂_linkFold S req.parentIds req.parentIds
      (fun r hr => hr) ext
    have hmem0 : ∃ m0 ∈ (batch : List (ImageMetadata K)),
        m0.id = s.nextId ∧ m0.parents = req.parentIds := by
      rw [hbatch]
      exact ⟨_, List.mem_cons_self _ _, rfl, rfl⟩
    rcases hmem0 with ⟨m0, hm0b, hm0id, hm0par⟩
    obtain ⟨r, hr, hrel⟩ :=
      forall₂_mem_left hF m0 (List.mem_append_right _ hm0b)
    refine ⟨r, hr, hrel.1.trans hm0id, hrel.2.2.2.2.1.trans hm0par, ?_⟩
    rw [hrel.2.2.2.2.1, hm0par]
    exact hp

/-- Witness for C2's amended statement: the dangling request on the
one-artifact store, with both hypotheses discharged there. -/
theorem claim2_no_dangling_parent_check_witness :
    stepResult te0 exState1 (Op.addExternal reqDangling [[2]]) =
      .ok (addExternalImages te0 exState1 reqDangling [[2]]) ∧
    ∃ r ∈ (addExternalImages te0 exState1 reqDangling [[2]]).imagesMetadata,
      r.id = exState1.nextId ∧ r.parents = reqDangling.parentIds ∧
        7 ∈ r.parents :=
  claim2_no_dangling_parent_check te0 exState1 reqDangling [[2]] 7
    (by decide) (by decide)

/-- Counterexample for C3 as stated: interpolating id 0 against itself on
the one-artifact store is NOT rejected — the call returns success, a new
artifact with id 1 and parents [0, 0] is created, and artifact 0's
children list becomes [1, 1]. -/
theorem claim3_counterexample :
    ((interpolateImages te0 exState1 0 0 [3]).toOption.map
      (fun s => s.imagesMetadata.map (fun r => (r.id, r.parents, r.children)))) =
    some [(0, [], [1, 1]), (1, [0, 0], [])] := by decide

/-- Claim C3, corrected.  The interpolate endpoint never compares id_a
with id_b: whenever id i names an existing artifact, interpolate(i, i)
succeeds, appends a new record with parents = [i, i], and pushes the new
id TWICE onto the children of the first record carrying id i; the store
is changed, and no InvalidRequest is signalled. -/
theorem claim3_self_interpolation_succeeds {K : Type} [CommRing K]
    (te : String → List K) (s : AppState K) (i : Nat) (emb : List K)
    (hex : ∃ m ∈ s.imagesMetadata, m.id = i) :
    ∃ s', interpolateImages te s i i emb = .ok s' ∧
      (∃ r ∈ s'.imagesMetadata, r.id = s.nextId ∧ r.parents = [i, i]) ∧
      ∃ l₁ a l₂ r, s.imagesMetadata = l₁ ++ a :: l₂ ∧ a.id = i ∧
        (∀ b ∈ l₁, b.id ≠ i) ∧
        r.id = s.nextId ∧ r.parents = [i, i] ∧ r.children = [] ∧
        s'.imagesMetadata =
          (l₁ ++ { a with children := a.children ++ [s.nextId, s.nextId] } :: l₂)
            ++ [r] := by
  have hex' : ∃ m ∈ s.imagesMetadata, ((m.id == i) = true) := by
    rcases hex with ⟨m, hm, hid⟩
    exact ⟨m, hm, by simp [hid]⟩
  have hsome : (s.imagesMetadata.find? (fun img => img.id == i)).isSome := by
    rw [List.find?_isSome]
    exact hex'
  rcases Option.isSome_iff_exists.1 hsome with ⟨m, hfind⟩
  cases hres : interpolateImages te s i i emb with
  | error err =>
    exfalso
    unfold interpolateImages at hres
    rw [hfind] at hres
    cases hres
  | ok s' =>
    refine ⟨s', rfl, ?_, ?_⟩
    all_goals
      unfold interpolateImages at hres
      rw [hfind] at hres
      injection hres with hres
    · rw [← hres]
      exact ⟨_, List.mem_append_right _ (List.mem_cons_self _ _), rfl, rfl⟩
    · set f : ImageMetadata K → ImageMetadata K :=
        fun img => { img with children := img.children ++ [s.nextId] } with hf
      have hcomp := updateFirst_updateFirst (q := fun img => img.id == i)
        (f := f) (g := f) (fun a => rfl) s.imagesMetadata
      obtain ⟨l₁, a, l₂, hsplit, hqa, hnone, hupd⟩ :=
        updateFirst_decomp (fun a => f (f a)) hex'
      refine ⟨l₁, a, l₂,
        { id := s.nextId,
          groupId := "interpolation_" ++ toString s.historyGroups.length,
          embedding := emb,
          coordinates := projectEmbedding te s.axisLabels s.is3dMode emb,
          parents := [i, i], children := [],
          generationMethod := "interpolation",
          prompt := "Interpolation between " ++ toString i ++ " and " ++ toString i,
          referenceIds := [i, i], visible := true },
        hsplit, by simpa using hqa, ?_, rfl, rfl, rfl, ?_⟩
      · intro b hb
        simpa using hnone b hb
      · rw [← hres]
        show updateFirst (fun img => img.id == i) f
          (updateFirst (fun img => img.id == i) f s.imagesMetadata) ++ _ =
            (l₁ ++ { a with children := a.children ++ [s.nextId, s.nextId] } :: l₂)
              ++ _
        rw [hcomp, hupd]
        have hff : f (f a) =
            { a with children := a.children ++ [s.nextId, s.nextId] } := by
          show { a with children := (a.children ++ [s.nextId]) ++ [s.nextId] } =
            { a with children := a.children ++ [s.nextId, s.nextId] }
          simp
        rw [hff]

/-- Witness for C3's amended statement: self-interpolation of id 0 on the
one-artifact store, with the existence hypothesis discharged there. -/
theorem claim3_self_interpolation_succeeds_witness :
    ∃ s', interpolateImages te0 exState1 0 0 [5] = .ok s' ∧
      (∃ r ∈ s'.imagesMetadata, r.id = exState1.nextId ∧ r.parents = [0, 0]) ∧
      ∃ l₁ a l₂ r, exState1.imagesMetadata = l₁ ++ a :: l₂ ∧ a.id = 0 ∧
        (∀ b ∈ l₁, b.id ≠ 0) ∧
        r.id = exState1.nextId ∧ r.parents = [0, 0] ∧ r.children = [] ∧
        s'.imagesMetadata =
          (l₁ ++ { a with children :=
            a.children ++ [exState1.nextId, exState1.nextId] } :: l₂) ++ [r] :=
  claim3_self_interpolation_succeeds te0 exState1 0 [5] (by decide)

end SemanticCanvas

namespace SemanticCanvas

/-- Claim C9, confirmed.  softDelete on an absent id fails NotFound (and,
the model returning only the error, commits nothing); on a present id it
returns a state identical except that the first record with that id has
its visible flag cleared: counter, groups, labels, 3D flag are untouched,
the record itself stays in the store with its parents and children lists
intact, and — when ids are unique, as the id invariant guarantees — no
record with that id remains in the visible (get_state) projection. -/
theorem claim9_softDelete_spec {K : Type} (s : AppState K) (i : Nat) :
    ((∀ a ∈ s.imagesMetadata, a.id ≠ i) → deleteImage s i = .error .notFound) ∧
    ∀ s', deleteImage s i = .ok s' →
      s'.nextId = s.nextId ∧ s'.historyGroups = s.historyGroups ∧
      s'.axisLabels = s.axisLabels ∧ s'.is3dMode = s.is3dMode ∧
      ∃ l₁ a l₂, s.imagesMetadata = l₁ ++ a :: l₂ ∧ a.id = i ∧
        (∀ b ∈ l₁, b.id ≠ i) ∧
        s'.imagesMetadata = l₁ ++ { a with visible := false } :: l₂ ∧
        ((idsOf s.imagesMetadata).Nodup →
          ∀ b ∈ visibleImages s', b.id ≠ i) := by
  constructor
  · intro habs
    unfold deleteImage
    rw [if_neg]
    intro hany
    rcases List.any_eq_true.1 hany with ⟨x, hx, hxid⟩
    exact habs x hx (by simpa using hxid)
  · intro s' h
    unfold deleteImage at h
    by_cases hany : s.imagesMetadata.any (fun img => img.id == i)
    · rw [if_pos hany] at h
      injection h with h
      subst h
      refine ⟨rfl, rfl, rfl, rfl, ?_⟩
      have hex : ∃ a ∈ s.imagesMetadata, ((fun img => img.id == i) a = true) := by
        rcases List.any_eq_true.1 hany with ⟨x, hx, hxid⟩
        exact ⟨x, hx, hxid⟩
      obtain ⟨l₁, a, l₂, hsplit, hqa, hnone, hupd⟩ :=
        updateFirst_decomp (fun img => { img with visible := false }) hex
      refine ⟨l₁, a, l₂, hsplit, by simpa using hqa,
        fun b hb => by simpa using hnone b hb, hupd, ?_⟩
      intro hnodup b hb
      have h1 : b ∈ List.filter (fun img => img.visible)
          (updateFirst (fun img => img.id == i)
            (fun img => { img with visible := false }) s.imagesMetadata) := hb
      rw [hupd] at h1
      have hbmem : b ∈ l₁ ++ { a with visible := false } :: l₂ :=
        (List.mem_filter.1 h1).1
      have hbvis : b.visible = true := by simpa using (List.mem_filter.1 h1).2
      intro hbid
      rcases List.mem_append.1 hbmem with hbl | hbr
      · have hfalse := hnone b hbl
        rw [hbid] at hfalse
        simp at hfalse
      · rcases List.mem_cons.1 hbr with rfl | hbl₂
        · simp at hbvis
        · have haid : a.id = i := by simpa using hqa
          rw [hsplit] at hnodup
          have hnd : (idsOf l₁ ++ a.id :: idsOf l₂).Nodup := by
            simpa [idsOf] using hnodup
          have hnot : a.id ∉ idsOf l₂ :=
            (List.nodup_cons.1 (List.Nodup.of_append_right hnd)).1
          refine hnot ?_
          rw [haid, ← hbid]
          exact List.mem_map.2 ⟨b, hbl₂, rfl⟩
    · rw [if_neg hany] at h
      cases h

/-- Witness for C9: on the one-artifact store, soft-deleting the absent
id 7 fails NotFound, and soft-deleting the present id 0 keeps the
counter. -/
theorem claim9_softDelete_spec_witness :
    deleteImage exState1 7 = .error ApiError.notFound ∧
    ((deleteImage exState1 0).toOption.getD (initialState ℚ)).nextId =
      exState1.nextId := by
  constructor
  · exact (claim9_softDelete_spec exState1 7).1 (by decide)
  · exact ((claim9_softDelete_spec exState1 0).2 _ rfl).1

/-- Claim C10, confirmed.  clear empties the record and group lists and
resets the id counter to 0 while leaving axis labels and the 2D/3D flag
untouched, so a batch generated right after a clear is positioned by
projecting onto the pre-clear axis configuration in the pre-clear
dimensionality. -/
theorem claim10_clear_frame {K : Type} [CommRing K] (te : String → List K)
    (s : AppState K) (prompt : String) (embs : List (List K)) :
    (clearCanvas s).axisLabels = s.axisLabels ∧
    (clearCanvas s).is3dMode = s.is3dMode ∧
    (clearCanvas s).imagesMetadata = [] ∧
    (clearCanvas s).historyGroups = [] ∧
    (clearCanvas s).nextId = 0 ∧
    ∀ m ∈ (generateImages te (clearCanvas s) prompt embs).imagesMetadata,
      m.coordinates = projectEmbedding te s.axisLabels s.is3dMode m.embedding := by
  refine ⟨rfl, rfl, rfl, rfl, rfl, ?_⟩
  intro m hm
  have hm' : m ∈ ([] : List (ImageMetadata K)) ++
      mkBatchMetas te s.axisLabels s.is3dMode
        ("batch_" ++ toString ([] : List HistoryGroup).length) "batch" prompt []
        0 embs := hm
  rcases List.mem_append.1 hm' with hnil | hbat
  · cases hnil
  · exact (mkBatchMetas_mem hbat).2.2.2.2.1

end SemanticCanvas

namespace SemanticCanvas

/-- Claim C7, confirmed.  update-axes recomputes the coordinates of every
record in the store — position by position, visible flag and all other
fields untouched, hidden records included — as the projection of the
stored embedding onto the newly installed axis labels in the current
dimensionality. -/
theorem claim7_update_axes_recomputes_all {K : Type} [CommRing K]
    (te : String → List K) (s : AppState K) (req : AxisUpdateRequest)
    (hne : s.imagesMetadata ≠ []) :
    (updateSemanticAxes te s req).axisLabels = axisLabelsAfter s.axisLabels req ∧
    (updateSemanticAxes te s req).is3dMode = s.is3dMode ∧
    (updateSemanticAxes te s req).imagesMetadata.length =
      s.imagesMetadata.length ∧
    ∀ i (hi : i < s.imagesMetadata.length),
      ∃ hi' : i < (updateSemanticAxes te s req).imagesMetadata.length,
        ((updateSemanticAxes te s req).imagesMetadata.get ⟨i, hi'⟩).coordinates =
          projectEmbedding te (axisLabelsAfter s.axisLabels req) s.is3dMode
            ((s.imagesMetadata.get ⟨i, hi⟩).embedding) ∧
        ((updateSemanticAxes te s req).imagesMetadata.get ⟨i, hi'⟩).visible =
          (s.imagesMetadata.get ⟨i, hi⟩).visible ∧
        ((updateSemanticAxes te s req).imagesMetadata.get ⟨i, hi'⟩).embedding =
          (s.imagesMetadata.get ⟨i, hi⟩).embedding ∧
        ((updateSemanticAxes te s req).imagesMetadata.get ⟨i, hi'⟩).id =
          (s.imagesMetadata.get ⟨i, hi⟩).id ∧
        ((updateSemanticAxes te s req).imagesMetadata.get ⟨i, hi'⟩).parents =
          (s.imagesMetadata.get ⟨i, hi⟩).parents ∧
        ((updateSemanticAxes te s req).imagesMetadata.get ⟨i, hi'⟩).children =
          (s.imagesMetadata.get ⟨i, hi⟩).children := by
  refine ⟨rfl, rfl, ?_, ?_⟩
  · show (s.imagesMetadata.map _).length = _
    exact List.length_map _ _
  · intro i hi
    have hi' : i < (updateSemanticAxes te s req).imagesMetadata.length := by
      show i < (s.imagesMetadata.map _).length
      rw [List.length_map]
      exact hi
    refine ⟨hi', ?_⟩
    have hget : (updateSemanticAxes te s req).imagesMetadata.get ⟨i, hi'⟩ =
        { s.imagesMetadata.get ⟨i, hi⟩ with
            coordinates := projectEmbedding te (axisLabelsAfter s.axisLabels req)
              s.is3dMode ((s.imagesMetadata.get ⟨i, hi⟩).embedding) } := by
      simp [updateSemanticAxes]
    rw [hget]
    exact ⟨rfl, rfl, rfl, rfl, rfl, rfl⟩

/-- Witness for C7: a concrete update on a store whose single record has
been hidden by a preceding soft delete — its coordinates are still
recomputed. -/
theorem claim7_update_axes_recomputes_all_witness :
    (updateSemanticAxes te0 ((deleteImage exState1 0).toOption.getD (initialState ℚ))
      { xPositive := "red", xNegative := "blue", yPositive := "tall",
        yNegative := "flat", zPositive := none, zNegative := none }).axisLabels =
      axisLabelsAfter
        ((deleteImage exState1 0).toOption.getD (initialState ℚ)).axisLabels
        { xPositive := "red", xNegative := "blue", yPositive := "tall",
          yNegative := "flat", zPositive := none, zNegative := none } ∧
    (updateSemanticAxes te0 ((deleteImage exState1 0).toOption.getD (initialState ℚ))
      { xPositive := "red", xNegative := "blue", yPositive := "tall",
        yNegative := "flat", zPositive := none,
        zNegative := none }).imagesMetadata.length =
      ((deleteImage exState1 0).toOption.getD (initialState ℚ)).imagesMetadata.length := by
  have h := claim7_update_axes_recomputes_all te0
    ((deleteImage exState1 0).toOption.getD (initialState ℚ))
    { xPositive := "red", xNegative := "blue", yPositive := "tall",
      yNegative := "flat", zPositive := none, zNegative := none } (by decide)
  exact ⟨h.1, h.2.2.1⟩

end SemanticCanvas

namespace SemanticCanvas

theorem dot_nil_right {K : Type} [CommRing K] (x : List K) : dot x [] = 0 := by
  cases x <;> rfl

theorem dot_map_div_left (c : ℝ) (x y : List ℝ) :
    dot (x.map (fun v => v / c)) y = dot x y / c := by
  induction x generalizing y with
  | nil => simp [dot]
  | cons h t ih =>
    cases y with
    | nil => simp [dot_nil_right]
    | cons hy ty =>
      show h / c * hy + dot (t.map (fun v => v / c)) ty = (h * hy + dot t ty) / c
      rw [ih, div_mul_eq_mul_div, add_div]

theorem dot_map_div_right (c : ℝ) (x y : List ℝ) :
    dot x (y.map (fun v => v / c)) = dot x y / c := by
  induction x generalizing y with
  | nil => simp [dot]
  | cons h t ih =>
    cases y with
    | nil => simp [dot_nil_right]
    | cons hy ty =>
      show h * (hy / c) + dot t (ty.map (fun v => v / c)) = (h * hy + dot t ty) / c
      rw [ih, ← mul_div_assoc, add_div]

theorem dot_normalizeVec_self {v : List ℝ} (hv : 0 < dot v v) :
    dot (normalizeVec v) (normalizeVec v) = 1 := by
  unfold normalizeVec
  rw [dot_map_div_left, dot_map_div_right, div_div]
  unfold vnorm
  rw [Real.mul_self_sqrt hv.le, div_self (ne_of_gt hv)]

theorem npClip_one : npClip (1 : ℝ) = 1 := by
  unfold npClip
  rw [min_self]
  exact max_eq_right (by norm_num)

theorem npClip_neg_one : npClip (-1 : ℝ) = -1 := by
  unfold npClip
  rw [min_eq_right (by norm_num), max_self]

theorem linearBlend_self (t : ℝ) (l : List ℝ) : linearBlend t l l = l := by
  induction l with
  | nil => rfl
  | cons h l ih =>
    show ((1 - t) * h + t * h) :: linearBlend t l l = h :: l
    rw [ih]
    congr 1
    ring

/-- Claim C6, confirmed.  On coincident endpoints the angle is
arccos(clip(1)) = 0, the guard 0 < 1e-6 routes execution to the
linear-blend fallback, and every blend of the normalised input with
itself is that normalised input: slerp(a, a, k) is constantly
a / ‖a‖ (for a nonzero a and any k ≥ 2 steps). -/
theorem claim6_slerp_coincident_fixed_point (a : List ℝ) (n : ℕ)
    (ha : 0 < dot a a) (hn : 2 ≤ n) :
    ∀ x ∈ sphericalInterpolate a a n, x = normalizeVec a := by
  intro x hx
  have homega : slerpOmega a a = 0 := by
    unfold slerpOmega
    rw [dot_normalizeVec_self ha, npClip_one, Real.arccos_one]
  have hcond : slerpOmega a a < 1e-6 := by
    rw [homega]
    norm_num
  unfold sphericalInterpolate at hx
  rw [if_pos hcond] at hx
  rcases List.mem_map.1 hx with ⟨j, _, rfl⟩
  exact linearBlend_self _ _

/-- Witness for C6: the unit vector e1 with two steps; hypotheses
discharged by computing the dot product. -/
theorem claim6_slerp_coincident_fixed_point_witness :
    (0 : ℝ) < dot [1, 0] [1, 0] ∧
      ∀ x ∈ sphericalInterpolate [1, 0] [1, 0] 2, x = normalizeVec [1, 0] :=
  ⟨by norm_num [dot],
    claim6_slerp_coincident_fixed_point [1, 0] 2 (by norm_num [dot]) (by norm_num)⟩

end SemanticCanvas

namespace SemanticCanvas

theorem vnorm_e1 : vnorm [(1 : ℝ), 0] = 1 := by
  unfold vnorm
  norm_num [dot, Real.sqrt_one]

theorem vnorm_neg_e1 : vnorm [(-1 : ℝ), 0] = 1 := by
  unfold vnorm
  norm_num [dot, Real.sqrt_one]

/-- Counterexample for C4 as stated: the exactly antiparallel unit pair
e1, −e1 has clamped dot product −1 — the most antiparallel input
possible — yet omega = arccos(−1) = π is NOT below the 1e-6 guard, so the
code does NOT take the linear-blend fallback; it takes the sine branch,
whose divisor sin(omega) is exactly zero there. -/
theorem claim4_counterexample :
    npClip (dot (normalizeVec [(1 : ℝ), 0]) (normalizeVec [(-1 : ℝ), 0])) = -1 ∧
    ¬ slerpUsesLinearFallback [(1 : ℝ), 0] [(-1 : ℝ), 0] ∧
    Real.sin (slerpOmega [(1 : ℝ), 0] [(-1 : ℝ), 0]) = 0 := by
  have hdot : dot (normalizeVec [(1 : ℝ), 0]) (normalizeVec [(-1 : ℝ), 0]) = -1 := by
    unfold normalizeVec
    rw [vnorm_e1, vnorm_neg_e1]
    norm_num [dot]
  have homega : slerpOmega [(1 : ℝ), 0] [(-1 : ℝ), 0] = Real.pi := by
    unfold slerpOmega
    rw [hdot, npClip_neg_one, Real.arccos_neg_one]
  refine ⟨by rw [hdot]; exact npClip_neg_one, ?_, ?_⟩
  · unfold slerpUsesLinearFallback
    rw [homega, not_lt]
    have hpi := Real.pi_gt_three
    have : (1e-6 : ℝ) ≤ 3 := by norm_num
    linarith
  · rw [homega]
    exact Real.sin_pi

/-- Claim C4, corrected.  The guard of spherical_interpolate tests
omega < 1e-6, which holds for near-PARALLEL normalised inputs (omega near
0), not near-antiparallel ones (omega near π): whenever omega < 1e-6 the
result is the list of linear blends of the normalised inputs (no division
by sin omega anywhere), and whenever omega ≥ 1e-6 — antiparallel inputs
included — the result is the sine-weighted branch that divides by
sin omega. -/
theorem claim4_linear_fallback_guard (a b : List ℝ) (n : ℕ) :
    (slerpUsesLinearFallback a b →
      sphericalInterpolate a b n = (List.range n).map
        (fun j => linearBlend (linspace01 n j) (normalizeVec a) (normalizeVec b))) ∧
    (¬ slerpUsesLinearFallback a b →
      sphericalInterpolate a b n = (List.range n).map
        (fun j => slerpSineBlend (slerpOmega a b) (linspace01 n j)
          (normalizeVec a) (normalizeVec b))) := by
  constructor
  · intro h
    have h' : slerpOmega a b < 1e-6 := h
    simp only [sphericalInterpolate]
    rw [if_pos h']
  · intro h
    have h' : ¬ (slerpOmega a b < 1e-6) := h
    simp only [sphericalInterpolate]
    rw [if_neg h']

/-- Witness for C4's amended statement: coincident unit inputs, whose
omega is 0 < 1e-6, so the fallback branch is taken. -/
theorem claim4_linear_fallback_guard_witness :
    slerpUsesLinearFallback [(1 : ℝ), 0] [(1 : ℝ), 0] ∧
    sphericalInterpolate [(1 : ℝ), 0] [(1 : ℝ), 0] 2 = (List.range 2).map
      (fun j => linearBlend (linspace01 2 j)
        (normalizeVec [(1 : ℝ), 0]) (normalizeVec [(1 : ℝ), 0])) := by
  have hfb : slerpUsesLinearFallback [(1 : ℝ), 0] [(1 : ℝ), 0] := by
    unfold slerpUsesLinearFallback slerpOmega
    rw [dot_normalizeVec_self (by norm_num [dot]), npClip_one, Real.arccos_one]
    norm_num
  exact ⟨hfb, (claim4_linear_fallback_guard [(1 : ℝ), 0] [(1 : ℝ), 0] 2).1 hfb⟩

end SemanticCanvas

namespace SemanticCanvas

theorem projectEmbedding_headI {K : Type} [CommRing K] (te : String → List K)
    (labels : AxisLabels) (use3d : Bool) (e : List K) [Inhabited K] :
    (projectEmbedding te labels use3d e).headI =
      dot e (clipTextAxisDirection te ("shoe that is " ++ labels.x.2)
        ("shoe that is " ++ labels.x.1)) := by
  unfold projectEmbedding
  cases use3d <;> rfl

theorem teR_axis_direction :
    clipTextAxisDirection teR "shoe that is sporty" "shoe that is formal" =
      [(1 : ℝ), -1] := by
  have htpos : teR "shoe that is sporty" = [(1 : ℝ), 0] := by simp [teR]
  have htneg : teR "shoe that is formal" = [(0 : ℝ), 1] := by simp [teR]
  unfold clipTextAxisDirection
  rw [htpos, htneg]
  norm_num

theorem vnorm_one_neg_one : vnorm [(1 : ℝ), -1] = Real.sqrt 2 := by
  unfold vnorm
  norm_num [dot]

/-- Counterexample for C5 as stated: with unit text embeddings
embed("shoe that is sporty") = e1 and embed(anything else) = e2, and the
unit image embedding e1, the x coordinate the source computes is
dot(e1, e1 − e2) = 1, while the spec's normalised-axis coordinate is
dot(e1, normalize(e1 − e2)) = 1/√2 ≠ 1: the source never normalises the
axis direction it projects onto. -/
theorem claim5_counterexample :
    (projectEmbedding teR initialAxisLabels false [(1 : ℝ), 0]).headI ≠
      specAxisCoordinate teR "shoe that is sporty" "shoe that is formal"
        [(1 : ℝ), 0] := by
  have hdirx : clipTextAxisDirection teR
      ("shoe that is " ++ initialAxisLabels.x.2)
      ("shoe that is " ++ initialAxisLabels.x.1) = [(1 : ℝ), -1] :=
    teR_axis_direction
  have hlhs : (projectEmbedding teR initialAxisLabels false [(1 : ℝ), 0]).headI = 1 := by
    rw [projectEmbedding_headI, hdirx]
    norm_num [dot]
  have hrhs : specAxisCoordinate teR "shoe that is sporty" "shoe that is formal"
      [(1 : ℝ), 0] = 1 / Real.sqrt 2 := by
    unfold specAxisCoordinate
    rw [teR_axis_direction]
    unfold normalizeVec
    rw [vnorm_e1, vnorm_one_neg_one]
    norm_num [dot]
  rw [hlhs, hrhs]
  have hgt : (1 : ℝ) < Real.sqrt 2 := by
    rw [show (1 : ℝ) = Real.sqrt 1 from (Real.sqrt_one).symm]
    exact Real.sqrt_lt_sqrt (by norm_num) (by norm_num)
  have hlt : 1 / Real.sqrt 2 < 1 := by
    rw [div_lt_one (lt_trans zero_lt_one hgt)]
    exact hgt
  exact (ne_of_lt hlt).symm

/-- Claim C5, corrected.  In semantic-axis mode the x coordinate the
source assigns is the dot product of the stored embedding with the RAW
axis direction embed(posText) − embed(negText): for a unit-normalised
stored embedding and a nonzero direction it equals the spec's
normalised-axis coordinate SCALED by the direction's norm, so the two
agree only when that norm is 1. -/
theorem claim5_projection_unnormalized_axis (te : String → List ℝ)
    (labels : AxisLabels) (use3d : Bool) (e : List ℝ)
    (he : dot e e = 1)
    (hd : 0 < dot (clipTextAxisDirection te ("shoe that is " ++ labels.x.2)
        ("shoe that is " ++ labels.x.1))
      (clipTextAxisDirection te ("shoe that is " ++ labels.x.2)
        ("shoe that is " ++ labels.x.1))) :
    (projectEmbedding te labels use3d e).headI =
      vnorm (clipTextAxisDirection te ("shoe that is " ++ labels.x.2)
        ("shoe that is " ++ labels.x.1)) *
      specAxisCoordinate te ("shoe that is " ++ labels.x.2)
        ("shoe that is " ++ labels.x.1) e := by
  rw [projectEmbedding_headI]
  unfold specAxisCoordinate normalizeVec
  rw [dot_map_div_left, dot_map_div_right]
  have hve : vnorm e = 1 := by
    unfold vnorm
    rw [he, Real.sqrt_one]
  have hvd : vnorm (clipTextAxisDirection te ("shoe that is " ++ labels.x.2)
      ("shoe that is " ++ labels.x.1)) ≠ 0 := by
    unfold vnorm
    exact ne_of_gt (Real.sqrt_pos.2 hd)
  rw [hve]
  field_simp

/-- Witness for C5's amended statement: the unit embedding e1 and the
concrete text embeddings teR, whose axis direction [1, −1] has positive
self dot product 2. -/
theorem claim5_projection_unnormalized_axis_witness :
    dot [(1 : ℝ), 0] [(1 : ℝ), 0] = 1 ∧
    (projectEmbedding teR initialAxisLabels false [(1 : ℝ), 0]).headI =
      vnorm (clipTextAxisDirection teR ("shoe that is " ++ initialAxisLabels.x.2)
        ("shoe that is " ++ initialAxisLabels.x.1)) *
      specAxisCoordinate teR ("shoe that is " ++ initialAxisLabels.x.2)
        ("shoe that is " ++ initialAxisLabels.x.1) [(1 : ℝ), 0] := by
  have hd : (0 : ℝ) < dot
      (clipTextAxisDirection teR ("shoe that is " ++ initialAxisLabels.x.2)
        ("shoe that is " ++ initialAxisLabels.x.1))
      (clipTextAxisDirection teR ("shoe that is " ++ initialAxisLabels.x.2)
        ("shoe that is " ++ initialAxisLabels.x.1)) := by
    rw [show clipTextAxisDirection teR ("shoe that is " ++ initialAxisLabels.x.2)
        ("shoe that is " ++ initialAxisLabels.x.1) = [(1 : ℝ), -1] from
      teR_axis_direction]
    norm_num [dot]
  exact ⟨by norm_num [dot],
    claim5_projection_unnormalized_axis teR initialAxisLabels false [(1 : ℝ), 0]
      (by norm_num [dot]) hd⟩

end SemanticCanvas
